import Mathlib

/-!
# The screen-state engine of yat (`src/backend/terminal_screen.cpp`)

A shallow embedding of `TerminalScreen`: the buffer of lines, the cursor, the
current text style and the queue of pending scroll actions, together with the
operations that mutate them.

Conventions of the embedding.

* A C++ `int` is an `Int`.  Signed overflow is undefined behaviour in C++, so
  no wrap-around is modelled; `%` is the truncating remainder `Int.tmod`, and a
  remainder by zero is a failure of the call.
* A call that runs into an out-of-range `QVector` access, a failed `Q_ASSERT`
  or a remainder by zero returns an `Error`; everything else is a total
  function on the state.
* The buffer is a `QVector<TextSegmentLine*>`.  A line object is a record of
  its identity (`id`, the serial number of its allocation) and its content;
  every line is owned by exactly one slot of the buffer, so mutating the
  object a slot points to is writing the slot.
* Qt signals are returned as a list, in the order of emission.
* The font and the title are members the operations below never read, and are
  left out of the state.  The decoder and the byte source, whose code is not
  part of this file, are parameters of `readData`.
-/

namespace Yat

/-- The ways a call can fail. -/
inductive Error where
  /-- A `QVector` access (`at`, `operator[]`, `replace`, `memmove`) outside the bounds. -/
  | IndexOutOfRange
  /-- A `Q_ASSERT` that does not hold. -/
  | ContractViolation
  /-- The right operand of `%` is zero. -/
  | DivisionByZero
  deriving DecidableEq, Repr

/-- A `QString`: its `size()` is the length of the list. -/
abbrev QString := List Char

/-- A `QColor`, as its red, green, blue and alpha channels. -/
structure QColor where
  red : Nat
  green : Nat
  blue : Nat
  alpha : Nat
  deriving DecidableEq, Repr

/-- The colour `Qt::black`. -/
def Qt.black : QColor := ⟨0, 0, 0, 255⟩

/-- The colour `Qt::white`. -/
def Qt.white : QColor := ⟨255, 255, 255, 255⟩

/-- The colour `Qt::transparent`. -/
def Qt.transparent : QColor := ⟨0, 0, 0, 0⟩

/-- Modelled from the spec: the emphasis flags of `TextStyle` (`text_style.h` is not among the
sources); the spec names `Normal` and `Bold`. -/
inductive TextStyle.Styles where
  | Normal
  | Bold
  deriving DecidableEq, Repr

/-- Modelled from the spec: `TextStyle` (`text_style.h` is not among the sources), a value record of
an emphasis and two colours; the field names are the ones `terminal_screen.cpp` writes to. -/
structure TextStyle where
  style : TextStyle.Styles
  forground : QColor
  background : QColor
  deriving DecidableEq, Repr

/-- Modelled from the spec: `ColorPalette` (`color_palette.h` is not among the sources): a normal
and a light colour for every index. -/
structure ColorPalette where
  normalColor : Nat → QColor
  lightColor : Nat → QColor

/-- Modelled from the spec: a segment of a line (`text_segment.h` is not among the sources), a run
of characters sharing one style. -/
structure TextSegment where
  text : QString
  style : TextStyle
  deriving DecidableEq, Repr

/-- Modelled from the spec: `TextSegmentLine` (`text_segment_line.h` is not among the sources), an
ordered sequence of segments.  `id` is the identity of the object. -/
structure TextSegmentLine where
  id : Nat
  segments : List TextSegment
  deriving DecidableEq, Repr

namespace TextSegmentLine

/-- The effect of `new TextSegmentLine(this)`: an empty line with a new identity. -/
def create (id : Nat) : TextSegmentLine := ⟨id, []⟩

/-- Modelled from the spec: `TextSegmentLine::clear()` removes all runs, returning the line to
empty; the object stays the same. -/
def clear (l : TextSegmentLine) : TextSegmentLine := { l with segments := [] }

/-- The cells of a line: every character with the style of its run. -/
def cells (l : TextSegmentLine) : List (Char × TextStyle) :=
  l.segments.flatMap (fun seg => seg.text.map (fun c => (c, seg.style)))

/-- Put one cell in front of a sequence of maximal runs. -/
def pushCell (cell : Char × TextStyle) : List TextSegment → List TextSegment
  | [] => [⟨[cell.1], cell.2⟩]
  | seg :: rest =>
    if seg.style = cell.2 then ⟨cell.1 :: seg.text, seg.style⟩ :: rest
    else ⟨[cell.1], cell.2⟩ :: seg :: rest

/-- The maximal runs of a sequence of cells. -/
def runs (cs : List (Char × TextStyle)) : List TextSegment :=
  cs.foldr pushCell []

/-- Modelled from the spec: `TextSegmentLine::insertAtPos(pos, text, style)` inserts `text` at
column `pos`, shifting the content at or after `pos` rightward; the inserted text carries `style`,
adjacent runs of identical style merge, and a `pos` beyond the end of the line is not padded. -/
def insertAtPos (l : TextSegmentLine) (pos : Int) (text : QString) (style : TextStyle) :
    TextSegmentLine :=
  let cs := l.cells
  let inserted := cs.take pos.toNat ++ text.map (fun c => (c, style)) ++ cs.drop pos.toNat
  { l with segments := runs inserted }

/-- Modelled from the spec: `TextSegmentLine::removeCharFromPos(pos)` truncates all runs at or
after column `pos`; a run straddling `pos` loses its tail. -/
def removeCharFromPos (l : TextSegmentLine) (pos : Int) : TextSegmentLine :=
  { l with segments := runs (l.cells.take pos.toNat) }

end TextSegmentLine

/-- A `QPoint`. -/
structure QPoint where
  x : Int
  y : Int
  deriving DecidableEq, Repr

/-- The direction of a pending scroll. -/
inductive UpdateAction.Action where
  | ScrollUp
  | ScrollDown
  deriving DecidableEq, Repr

/-- An entry of the pending-update queue: `UpdateAction(action, from_line, count)`. -/
structure UpdateAction where
  action : UpdateAction.Action
  from_line : Int
  count : Int
  deriving DecidableEq, Repr

/-- Modelled from the spec: the transport boundary `YatPty` (`yat_pty.h` is not among the sources),
as the terminal size last forwarded to it. -/
structure YatPty where
  width : Int
  height : Int
  deriving DecidableEq, Repr

/-- The signals `TerminalScreen` emits. -/
inductive Signal where
  | linesRemoved (count : Int)
  | linesInserted (count : Int)
  | scrollUp (from_line : Int) (count : Int)
  | scrollDown (from_line : Int) (count : Int)
  | dispatchLineChanges
  | dispatchTextSegmentChanges
  deriving DecidableEq, Repr

/-- Whether a signal is one of the two scroll notifications. -/
def Signal.isScroll : Signal → Bool
  | .scrollUp _ _ => true
  | .scrollDown _ _ => true
  | _ => false

namespace QVector

/-- The call `QVector::at(i)`: the element at index `i`, which has to be inside the bounds. -/
def at_ {α : Type} (v : List α) (i : Int) : Except Error α :=
  if i < 0 then .error .IndexOutOfRange
  else match v[i.toNat]? with
    | some a => .ok a
    | none => .error .IndexOutOfRange

/-- The call `QVector::replace(i, value)`: overwrite the element at index `i`, which has to be
inside the bounds. -/
def replace {α : Type} (v : List α) (i : Int) (value : α) : Except Error (List α) :=
  if 0 ≤ i ∧ i < v.length then .ok (v.set i.toNat value)
  else .error .IndexOutOfRange

/-- The call `memmove(data, data + 1, sizeof(element) * n)` on the elements of a vector: slot `i`
receives the old content of slot `i + 1` for every `i < n`; the other slots keep theirs.  The
source range has to lie inside the vector. -/
def memmove {α : Type} (v : List α) (n : Int) : Except Error (List α) :=
  if 0 ≤ n ∧ n + 1 ≤ v.length then .ok ((v.drop 1).take n.toNat ++ v.drop n.toNat)
  else .error .IndexOutOfRange

end QVector

/-- The members of `TerminalScreen` the operations work on.  `next_line` counts the
`TextSegmentLine` objects allocated so far and is the identity of the next one. -/
structure TerminalScreen where
  m_palette : ColorPalette
  m_pty : YatPty
  m_screen_lines : List TextSegmentLine
  m_cursor_pos : QPoint
  m_current_text_style : TextStyle
  m_update_actions : List UpdateAction
  next_line : Nat

namespace TerminalScreen

/-- The colour `TerminalScreen::defaultForgroundColor()`. -/
def defaultForgroundColor : QColor := Qt.black

/-- The colour `TerminalScreen::defaultBackgroundColor()`. -/
def defaultBackgroundColor : QColor := Qt.transparent

/-- The accessor `TerminalScreen::height()`. -/
def height (s : TerminalScreen) : Int := s.m_screen_lines.length

/-- The lines `new TextSegmentLine(this)` yields when called `n` times in a row. -/
def newLines (next : Nat) (n : Nat) : List TextSegmentLine :=
  (List.range n).map (fun i => TextSegmentLine.create (next + i))

/-- The method `TerminalScreen::setHeight(int height)`. -/
def setHeight (s : TerminalScreen) (height : Int) : Except Error (TerminalScreen × List Signal) := do
  let size : Int := s.m_screen_lines.length
  let (s1, signals) ←
    if size > height then
      let removeElements := size - height
      -- `delete m_screen_lines[i]` for every `i < removeElements`
      if removeElements > size then throw Error.IndexOutOfRange
      else
        pure ({ s with m_screen_lines := s.m_screen_lines.drop removeElements.toNat },
              [Signal.linesRemoved removeElements])
    else if size < height then
      let rowsToAdd := height - size
      pure ({ s with
                m_screen_lines := s.m_screen_lines ++ newLines s.next_line rowsToAdd.toNat
                next_line := s.next_line + rowsToAdd.toNat },
            [Signal.linesInserted rowsToAdd])
    else
      pure (s, [])
  let s2 :=
    if s1.m_cursor_pos.y ≥ s1.m_screen_lines.length then
      { s1 with m_cursor_pos := { s1.m_cursor_pos with y := s1.m_screen_lines.length - 1 } }
    else s1
  pure ({ s2 with m_pty := { s2.m_pty with height := height } }, signals)

/-- The method `TerminalScreen::setWidth(int width)`. -/
def setWidth (s : TerminalScreen) (width : Int) : TerminalScreen :=
  { s with m_pty := { s.m_pty with width := width } }

/-- The method `TerminalScreen::resetStyle()`. -/
def resetStyle (s : TerminalScreen) : TerminalScreen :=
  { s with m_current_text_style :=
      { background := defaultBackgroundColor
        forground := defaultForgroundColor
        style := TextStyle.Styles.Normal } }

/-- The method `TerminalScreen::moveCursorHome()`. -/
def moveCursorHome (s : TerminalScreen) : TerminalScreen :=
  { s with m_cursor_pos := { s.m_cursor_pos with x := 0 } }

/-- The method `TerminalScreen::moveCursorUp()`. -/
def moveCursorUp (s : TerminalScreen) : TerminalScreen :=
  { s with m_cursor_pos := { s.m_cursor_pos with y := s.m_cursor_pos.y - 1 } }

/-- The method `TerminalScreen::moveCursorDown()`. -/
def moveCursorDown (s : TerminalScreen) : TerminalScreen :=
  { s with m_cursor_pos := { s.m_cursor_pos with y := s.m_cursor_pos.y + 1 } }

/-- The method `TerminalScreen::moveCursorLeft()`. -/
def moveCursorLeft (s : TerminalScreen) : TerminalScreen :=
  { s with m_cursor_pos := { s.m_cursor_pos with x := s.m_cursor_pos.x + 1 } }

/-- The method `TerminalScreen::moveCursorRight()`. -/
def moveCursorRight (s : TerminalScreen) : TerminalScreen :=
  { s with m_cursor_pos := { s.m_cursor_pos with x := s.m_cursor_pos.x - 1 } }

/-- The method `TerminalScreen::line_at_cursor()`. -/
def line_at_cursor (s : TerminalScreen) : Except Error TextSegmentLine :=
  QVector.at_ s.m_screen_lines s.m_cursor_pos.y

/-- Write back the line object the cursor row points to, after a method of the line changed it. -/
def store_line_at_cursor (s : TerminalScreen) (line : TextSegmentLine) : TerminalScreen :=
  { s with m_screen_lines := s.m_screen_lines.set s.m_cursor_pos.y.toNat line }

/-- The method `TerminalScreen::insertAtCursor(const QString &text)`. -/
def insertAtCursor (s : TerminalScreen) (text : QString) : Except Error TerminalScreen := do
  let line ← line_at_cursor s
  let s1 := { s with m_cursor_pos := { s.m_cursor_pos with x := s.m_cursor_pos.x + text.length } }
  pure (store_line_at_cursor s1 (line.insertAtPos s1.m_cursor_pos.x text s1.m_current_text_style))

/-- The method `TerminalScreen::backspace()`. -/
def backspace (s : TerminalScreen) : TerminalScreen :=
  if s.m_cursor_pos.x > 0 then
    { s with m_cursor_pos := { s.m_cursor_pos with x := s.m_cursor_pos.x - 1 } }
  else s

/-- The method `TerminalScreen::eraseLine()`. -/
def eraseLine (s : TerminalScreen) : Except Error TerminalScreen := do
  let line ← line_at_cursor s
  pure (store_line_at_cursor s line.clear)

/-- The method `TerminalScreen::eraseFromPresentationPositionToEndOfLine()`. -/
def eraseFromPresentationPositionToEndOfLine (s : TerminalScreen) : Except Error TerminalScreen := do
  let active_presentation_pos := s.m_cursor_pos.x
  let line ← line_at_cursor s
  pure (store_line_at_cursor s (line.removeCharFromPos active_presentation_pos))

/-- The method `TerminalScreen::setColor(bool bold, ushort color)`. -/
def setColor (s : TerminalScreen) (bold : Bool) (color : Nat) : Except Error TerminalScreen :=
  if ¬ (color ≥ 30 ∧ color < 50) then .error .ContractViolation
  else if color < 38 then
    if bold then
      .ok { s with m_current_text_style :=
              { s.m_current_text_style with forground := s.m_palette.normalColor (color - 30) } }
    else
      .ok { s with m_current_text_style :=
              { s.m_current_text_style with forground := s.m_palette.lightColor (color - 30) } }
  else if color = 39 then
    .ok { s with m_current_text_style :=
            { s.m_current_text_style with forground := defaultForgroundColor } }
  else
    let s1 :=
      if color ≥ 40 ∧ color < 48 then
        if bold then
          { s with m_current_text_style :=
              { s.m_current_text_style with background := s.m_palette.normalColor (color - 40) } }
        else
          { s with m_current_text_style :=
              { s.m_current_text_style with background := s.m_palette.lightColor (color - 40) } }
      else s
    let s2 :=
      if color = 49 then
        { s1 with m_current_text_style :=
            { s1.m_current_text_style with background := defaultBackgroundColor } }
      else s1
    .ok s2

/-- The queue after `doScrollOneLineUpAt` or `doScrollOneLineDownAt`, by the direction
registered: the count of the last entry grows when the queue is not empty and its last entry has
the same direction and line, otherwise `UpdateAction(direction, line, 1)` is appended. -/
def registerScroll (direction : UpdateAction.Action) (line : Int) (q : List UpdateAction) :
    List UpdateAction :=
  match q.getLast? with
  | some last =>
    if last.action = direction ∧ last.from_line = line then
      q.dropLast ++ [{ last with count := last.count + 1 }]
    else q ++ [⟨direction, line, 1⟩]
  | none => q ++ [⟨direction, line, 1⟩]

/-- The method `TerminalScreen::doScrollOneLineUpAt(int line)`. -/
def doScrollOneLineUpAt (s : TerminalScreen) (line : Int) : TerminalScreen :=
  { s with m_update_actions := registerScroll .ScrollUp line s.m_update_actions }

/-- The method `TerminalScreen::doScrollOneLineDownAt(int line)`. -/
def doScrollOneLineDownAt (s : TerminalScreen) (line : Int) : TerminalScreen :=
  { s with m_update_actions := registerScroll .ScrollDown line s.m_update_actions }

/-- The method `TerminalScreen::newLine()`. -/
def newLine (s : TerminalScreen) : Except Error TerminalScreen :=
  if s.m_cursor_pos.y = (s.m_screen_lines.length : Int) - 1 then do
    let firstLine ← QVector.at_ s.m_screen_lines 0
    let rows_to_move := s.m_cursor_pos.y
    let lines ← QVector.memmove s.m_screen_lines rows_to_move
    let lines ← QVector.replace lines s.m_cursor_pos.y firstLine.clear
    pure (doScrollOneLineUpAt { s with m_screen_lines := lines } s.m_cursor_pos.y)
  else
    pure (moveCursorHome (moveCursorDown s))

/-- One turn of the loop of `dispatchChanges`: the signals emitted for one queue entry. -/
def dispatchAction (height : Int) (action : UpdateAction) : Except Error (List Signal) :=
  match action.action with
  | .ScrollUp =>
    if action.from_line + 1 = 0 then .error .DivisionByZero
    else
      let lines_to_move := Int.tmod action.count (action.from_line + 1)
      .ok (if lines_to_move ≠ 0 then [Signal.scrollUp action.from_line lines_to_move] else [])
  | .ScrollDown =>
    if height - action.from_line = 0 then .error .DivisionByZero
    else
      let lines_to_move := Int.tmod action.count (height - action.from_line)
      .ok (if lines_to_move ≠ 0 then [Signal.scrollDown action.from_line lines_to_move] else [])

/-- The loop of `dispatchChanges` over the queue, front to back. -/
def dispatchLoop (height : Int) : List UpdateAction → Except Error (List Signal)
  | [] => .ok []
  | action :: rest => do
    let signals ← dispatchAction height action
    let more ← dispatchLoop height rest
    pure (signals ++ more)

/-- The method `TerminalScreen::dispatchChanges()`. -/
def dispatchChanges (s : TerminalScreen) : Except Error (TerminalScreen × List Signal) := do
  let signals ← dispatchLoop s.height s.m_update_actions
  pure ({ s with m_update_actions := [] },
        signals ++ [Signal.dispatchLineChanges, Signal.dispatchTextSegmentChanges])

/-- The constructor `TerminalScreen::TerminalScreen(QObject *parent)`, for a given palette: the
members start empty, the cursor at `QPoint()`, and the body sets the size to 80 by 25 and the two
colours of the current style to the defaults.  The background that `TextStyle(Normal, Qt::white)`
starts with is overwritten before the constructor returns. -/
def construct (palette : ColorPalette) : Except Error (TerminalScreen × List Signal) := do
  let s0 : TerminalScreen :=
    { m_palette := palette
      m_pty := ⟨0, 0⟩
      m_screen_lines := []
      m_cursor_pos := ⟨0, 0⟩
      m_current_text_style := ⟨TextStyle.Styles.Normal, Qt.white, Qt.transparent⟩
      m_update_actions := []
      next_line := 0 }
  let s1 := setWidth s0 80
  let (s2, signals) ← setHeight s1 25
  pure ({ s2 with m_current_text_style :=
            { s2.m_current_text_style with
                forground := defaultForgroundColor
                background := defaultBackgroundColor } },
        signals)

end TerminalScreen

/-- The public operations of the screen, as data. -/
inductive Op where
  | moveCursorHome
  | moveCursorUp
  | moveCursorDown
  | moveCursorLeft
  | moveCursorRight
  | backspace
  | newLine
  | insertAtCursor (text : QString)
  | eraseLine
  | eraseFromPresentationPositionToEndOfLine
  | setColor (bold : Bool) (color : Nat)
  | resetStyle
  | setHeight (height : Int)
  | setWidth (width : Int)
  | dispatchChanges
  deriving DecidableEq, Repr

namespace TerminalScreen

/-- Perform one public operation; the signals it emits come with the new state. -/
def step (s : TerminalScreen) : Op → Except Error (TerminalScreen × List Signal)
  | .moveCursorHome => .ok (s.moveCursorHome, [])
  | .moveCursorUp => .ok (s.moveCursorUp, [])
  | .moveCursorDown => .ok (s.moveCursorDown, [])
  | .moveCursorLeft => .ok (s.moveCursorLeft, [])
  | .moveCursorRight => .ok (s.moveCursorRight, [])
  | .backspace => .ok (s.backspace, [])
  | .newLine => (s.newLine).map (fun t => (t, []))
  | .insertAtCursor text => (s.insertAtCursor text).map (fun t => (t, []))
  | .eraseLine => (s.eraseLine).map (fun t => (t, []))
  | .eraseFromPresentationPositionToEndOfLine =>
    (s.eraseFromPresentationPositionToEndOfLine).map (fun t => (t, []))
  | .setColor bold color => (s.setColor bold color).map (fun t => (t, []))
  | .resetStyle => .ok (s.resetStyle, [])
  | .setHeight height => s.setHeight height
  | .setWidth width => .ok (s.setWidth width, [])
  | .dispatchChanges => s.dispatchChanges

/-- Perform a sequence of public operations, first to last, stopping at the first failure. -/
def run (s : TerminalScreen) : List Op → Except Error (TerminalScreen × List Signal)
  | [] => .ok (s, [])
  | op :: ops => do
    let (s1, signals) ← s.step op
    let (s2, more) ← s1.run ops
    pure (s2, signals ++ more)

/-- Call `newLine` `k` times in a row. -/
def newLine_repeat (s : TerminalScreen) : Nat → Except Error TerminalScreen
  | 0 => .ok s
  | k + 1 => do
    let s1 ← s.newLine
    s1.newLine_repeat k

end TerminalScreen

/-! ### Predicates on states and operations -/

/-- The cursor-row invariant: `0 ≤ row < height()`. -/
def TerminalScreen.cursorRowValid (s : TerminalScreen) : Prop :=
  0 ≤ s.m_cursor_pos.y ∧ s.m_cursor_pos.y < s.height

/-- Every entry of the queue is a `ScrollUp` registered at a line that is not negative. -/
def scrollUpsOnly (q : List UpdateAction) : Prop :=
  ∀ a ∈ q, a.action = UpdateAction.Action.ScrollUp ∧ 0 ≤ a.from_line

/-- The calls that cannot move the cursor row out of the buffer: everything but `moveCursorUp`
and `moveCursorDown`, with `setHeight` called with a positive height and `setColor` with a code
its assertion accepts. -/
def Op.keepsRow : Op → Bool
  | .moveCursorUp => false
  | .moveCursorDown => false
  | .setHeight height => decide (1 ≤ height)
  | .setColor _ color => decide (30 ≤ color ∧ color < 50)
  | _ => true

/-! ### The flush, as the specification words it -/

/-- The modulus the specification gives for a queue entry: `from_line + 1` for a `ScrollUp`,
`height - from_line` for a `ScrollDown`. -/
def UpdateAction.modulus (height : Int) (a : UpdateAction) : Int :=
  match a.action with
  | .ScrollUp => a.from_line + 1
  | .ScrollDown => height - a.from_line

/-- The notification the specification gives for a queue entry: the count reduced modulo the
modulus of the entry (the remainder of the division truncated toward zero, the ordinary remainder
when the count is not negative), in the direction of the entry, and none when it is zero. -/
def flushNotification (height : Int) (a : UpdateAction) : Option Signal :=
  let reduced := Int.tmod a.count (a.modulus height)
  if reduced = 0 then none
  else match a.action with
    | .ScrollUp => some (Signal.scrollUp a.from_line reduced)
    | .ScrollDown => some (Signal.scrollDown a.from_line reduced)

/-- The notifications the specification gives for a queue: those of its entries, in insertion
order, the entries with a zero reduced count left out. -/
def flushNotifications (height : Int) (q : List UpdateAction) : List Signal :=
  q.filterMap (flushNotification height)

/-! ### Sequences of registrations -/

/-- Two queue entries that a registration would merge: same direction and same line. -/
def UpdateAction.sameTarget (a b : UpdateAction) : Prop :=
  a.action = b.action ∧ a.from_line = b.from_line

/-- The sum of the counts of a queue. -/
def countSum (q : List UpdateAction) : Int :=
  (q.map UpdateAction.count).sum

/-- One registration, by direction and line: a call of `doScrollOneLineUpAt` or of
`doScrollOneLineDownAt`. -/
def TerminalScreen.register (s : TerminalScreen) (r : UpdateAction.Action × Int) :
    TerminalScreen :=
  match r.1 with
  | .ScrollUp => s.doScrollOneLineUpAt r.2
  | .ScrollDown => s.doScrollOneLineDownAt r.2

/-- A sequence of registrations, first to last. -/
def TerminalScreen.registerAll (s : TerminalScreen) (rs : List (UpdateAction.Action × Int)) :
    TerminalScreen :=
  rs.foldl TerminalScreen.register s

/-! ### The precondition of the flush -/

/-- The natural precondition of the flush: every count is 1 or more, every `ScrollUp` entry is
registered at a line that is not negative and every `ScrollDown` entry at a line below
`height()`. -/
def TerminalScreen.flushPrecondition (s : TerminalScreen) : Prop :=
  ∀ a ∈ s.m_update_actions, 1 ≤ a.count ∧
    (a.action = UpdateAction.Action.ScrollUp → 0 ≤ a.from_line) ∧
    (a.action = UpdateAction.Action.ScrollDown → a.from_line < s.height)

/-! ### The processing cycle -/

/-- A `QByteArray`. -/
abbrev QByteArray := List Nat

/-- Modelled from the spec: an operation the decoder dispatches to the screen, which is any
public operation but the flush; the flush is performed by the cycle driver. -/
def DecoderOp := { op : Op // op ≠ Op.dispatchChanges }

/-- Modelled from the spec: the decoder `Parser` (`parser.h` is not among the sources): it
accepts a byte chunk and returns the sequence of screen operations it dispatches; `P` is the
state it keeps between chunks. -/
structure Parser (P : Type) where
  decode : P → QByteArray → P × List DecoderOp

/-- A palette of eight hues: bit 0 of the index is red, bit 1 green, bit 2 blue; the normal
variant is dimmer than the light one. -/
def examplePalette : ColorPalette where
  normalColor := fun i => ⟨205 * (i % 2), 205 * (i / 2 % 2), 205 * (i / 4 % 2), 255⟩
  lightColor := fun i => ⟨255 * (i % 2), 255 * (i / 2 % 2), 255 * (i / 4 % 2), 255⟩

/-- The style of the text in `exampleScreen`. -/
def exampleStyle : TextStyle :=
  ⟨TextStyle.Styles.Normal, TerminalScreen.defaultForgroundColor,
    TerminalScreen.defaultBackgroundColor⟩

/-- A screen of three lines, the first two with text, the cursor on the bottom line. -/
def exampleScreen : TerminalScreen where
  m_palette := examplePalette
  m_pty := ⟨80, 3⟩
  m_screen_lines :=
    [⟨0, [⟨['a', 'b'], exampleStyle⟩]⟩, ⟨1, [⟨['c'], exampleStyle⟩]⟩, ⟨2, []⟩]
  m_cursor_pos := ⟨0, 2⟩
  m_current_text_style := exampleStyle
  m_update_actions := []
  next_line := 3

/-- The state the constructor returns for the example palette: 25 empty lines, the cursor at
the origin. -/
def exampleFresh : TerminalScreen :=
  match TerminalScreen.construct examplePalette with
  | .ok (s, _) => s
  | .error _ => exampleScreen

/-- A decoder that dispatches nothing. -/
def idleParser : Parser Unit where
  decode := fun p _ => (p, [])

end Yat

namespace Yat

open TerminalScreen

/-! ## The resize `setHeight` -/

/-- Shrinking: the first `size - height` lines are removed and their number is reported. -/
theorem setHeight_shrink_eq (s : TerminalScreen) (h : Int) (h0 : 0 ≤ h)
    (hlt : h < s.m_screen_lines.length) :
    ∃ t, s.setHeight h = .ok (t, [Signal.linesRemoved (s.m_screen_lines.length - h)]) ∧
      t.m_screen_lines = s.m_screen_lines.drop (s.m_screen_lines.length - h.toNat) ∧
      t.m_cursor_pos = (if s.m_cursor_pos.y ≥ h then { s.m_cursor_pos with y := h - 1 }
        else s.m_cursor_pos) ∧
      t.m_current_text_style = s.m_current_text_style ∧
      t.m_update_actions = s.m_update_actions ∧
      t.next_line = s.next_line := by
  have hlen : ((s.m_screen_lines.length : Int) - h).toNat = s.m_screen_lines.length - h.toNat := by
    omega
  have hdrop : ((s.m_screen_lines.drop (s.m_screen_lines.length - h.toNat)).length : Int) = h := by
    rw [List.length_drop]; omega
  have hnot : ¬ ((s.m_screen_lines.length : Int) - h > s.m_screen_lines.length) := by omega
  simp only [setHeight, gt_iff_lt, hlt, hnot, if_true, if_false, hlen, bind, Except.bind, pure,
    Except.pure, hdrop, ge_iff_le]
  by_cases hy : h ≤ s.m_cursor_pos.y
  · simp [hy]
  · simp [hy]

/-- The lines allocated by a resize are as many as asked for. -/
theorem newLines_length (next n : Nat) : (newLines next n).length = n := by
  simp [newLines]

/-- Growing: `height - size` new empty lines are appended and their number is reported. -/
theorem setHeight_grow_eq (s : TerminalScreen) (h : Int)
    (hgt : (s.m_screen_lines.length : Int) < h) :
    ∃ t, s.setHeight h = .ok (t, [Signal.linesInserted (h - s.m_screen_lines.length)]) ∧
      t.m_screen_lines =
        s.m_screen_lines ++ newLines s.next_line (h.toNat - s.m_screen_lines.length) ∧
      t.m_cursor_pos = (if s.m_cursor_pos.y ≥ h then { s.m_cursor_pos with y := h - 1 }
        else s.m_cursor_pos) ∧
      t.m_current_text_style = s.m_current_text_style ∧
      t.m_update_actions = s.m_update_actions ∧
      t.next_line = s.next_line + (h.toNat - s.m_screen_lines.length) := by
  have hlen : (h - (s.m_screen_lines.length : Int)).toNat = h.toNat - s.m_screen_lines.length := by
    omega
  have hnot : ¬ ((s.m_screen_lines.length : Int) > h) := by omega
  have happ : ((s.m_screen_lines ++
      newLines s.next_line (h.toNat - s.m_screen_lines.length)).length : Int) = h := by
    rw [List.length_append, newLines_length]; omega
  simp only [setHeight, hgt, hnot, if_true, if_false, hlen, bind, Except.bind, pure,
    Except.pure, happ, ge_iff_le]
  by_cases hy : h ≤ s.m_cursor_pos.y
  · simp [hy]
  · simp [hy]

/-- Resizing to the current height: no line is touched and nothing is reported. -/
theorem setHeight_same_eq (s : TerminalScreen) (h : Int)
    (heq : (s.m_screen_lines.length : Int) = h) :
    ∃ t, s.setHeight h = .ok (t, []) ∧
      t.m_screen_lines = s.m_screen_lines ∧
      t.m_cursor_pos = (if s.m_cursor_pos.y ≥ h then { s.m_cursor_pos with y := h - 1 }
        else s.m_cursor_pos) ∧
      t.m_current_text_style = s.m_current_text_style ∧
      t.m_update_actions = s.m_update_actions ∧
      t.next_line = s.next_line := by
  subst heq
  simp only [setHeight, gt_iff_lt, lt_self_iff_false, if_false, bind, Except.bind, pure,
    Except.pure, ge_iff_le]
  by_cases hy : (s.m_screen_lines.length : Int) ≤ s.m_cursor_pos.y
  · simp [hy]
  · simp [hy]

/-- Whatever the direction of a resize to a height that is not negative, the call returns, the
buffer has the requested length, and the cursor, the style and the queue are as described. -/
theorem setHeight_spec (s : TerminalScreen) (h : Int) (h0 : 0 ≤ h) :
    ∃ t signals, s.setHeight h = .ok (t, signals) ∧
      (t.m_screen_lines.length : Int) = h ∧
      t.m_cursor_pos = (if s.m_cursor_pos.y ≥ h then { s.m_cursor_pos with y := h - 1 }
        else s.m_cursor_pos) ∧
      t.m_current_text_style = s.m_current_text_style ∧
      t.m_update_actions = s.m_update_actions := by
  rcases lt_trichotomy h (s.m_screen_lines.length : Int) with hlt | heq | hgt
  · obtain ⟨t, ht, hl, hc, hs, hq, _⟩ := setHeight_shrink_eq s h h0 hlt
    refine ⟨t, _, ht, ?_, hc, hs, hq⟩
    rw [hl, List.length_drop]; omega
  · obtain ⟨t, ht, hl, hc, hs, hq, _⟩ := setHeight_same_eq s h heq.symm
    exact ⟨t, _, ht, by rw [hl]; exact heq.symm, hc, hs, hq⟩
  · obtain ⟨t, ht, hl, hc, hs, hq, _⟩ := setHeight_grow_eq s h hgt
    refine ⟨t, _, ht, ?_, hc, hs, hq⟩
    rw [hl, List.length_append, newLines_length]; omega

/-- C1: for every screen state and every requested height `h ≥ 0`, the call `setHeight(h)`
returns and afterwards the buffer holds exactly `h` lines, that is `height() == h`. -/
theorem setHeight_height (s : TerminalScreen) (h : Int) (h0 : 0 ≤ h) :
    ∃ t signals, s.setHeight h = .ok (t, signals) ∧ t.height = h := by
  obtain ⟨t, signals, ht, hl, _⟩ := setHeight_spec s h h0
  exact ⟨t, signals, ht, hl⟩

/-- Witness of C1: shrinking the three-line example screen to two lines. -/
theorem setHeight_height_witness :
    (0 : Int) ≤ 2 ∧ ∃ t signals, exampleScreen.setHeight 2 = .ok (t, signals) ∧ t.height = 2 :=
  ⟨by decide, setHeight_height exampleScreen 2 (by decide)⟩

/-! ## Sequences of operations -/

/-- Running two sequences one after the other is running their concatenation. -/
theorem run_append (ops1 ops2 : List Op) (s s1 s2 : TerminalScreen) (g1 g2 : List Signal)
    (h1 : s.run ops1 = .ok (s1, g1)) (h2 : s1.run ops2 = .ok (s2, g2)) :
    s.run (ops1 ++ ops2) = .ok (s2, g1 ++ g2) := by
  induction ops1 generalizing s g1 with
  | nil =>
    simp only [run, Except.ok.injEq, Prod.mk.injEq] at h1
    obtain ⟨rfl, rfl⟩ := h1
    simpa using h2
  | cons op ops ih =>
    simp only [run, List.cons_append, bind, Except.bind] at h1 ⊢
    cases hstep : s.step op with
    | error e => simp [hstep] at h1
    | ok r =>
      obtain ⟨sa, ga⟩ := r
      simp only [hstep] at h1 ⊢
      cases hrest : sa.run ops with
      | error e => simp [hrest] at h1
      | ok r2 =>
        obtain ⟨sb, gb⟩ := r2
        simp only [hrest, pure, Except.pure, Except.ok.injEq, Prod.mk.injEq] at h1
        obtain ⟨rfl, rfl⟩ := h1
        simp [ih sa gb hrest, pure, Except.pure]

/-- Running a single operation is performing it. -/
theorem run_single (op : Op) (s t : TerminalScreen) (g : List Signal)
    (h : s.step op = .ok (t, g)) : s.run [op] = .ok (t, g) := by
  simp [run, h, bind, Except.bind, pure, Except.pure]

/-- The constructor returns, and what it returns: 25 new empty lines, the cursor at the origin,
an empty queue and the default colours. -/
theorem construct_eq (palette : ColorPalette) :
    ∃ s0, construct palette = .ok (s0, [Signal.linesInserted 25]) ∧
      s0.m_screen_lines = newLines 0 25 ∧ s0.m_cursor_pos = ⟨0, 0⟩ ∧
      s0.m_update_actions = [] ∧
      s0.m_current_text_style =
        ⟨TextStyle.Styles.Normal, defaultForgroundColor, defaultBackgroundColor⟩ :=
  ⟨_, rfl, rfl, rfl, rfl, rfl⟩

/-- A resize to a positive height puts a row that is not negative inside the buffer. -/
theorem setHeight_row (s : TerminalScreen) (h : Int) (h1 : 1 ≤ h) (hy : 0 ≤ s.m_cursor_pos.y) :
    ∃ t signals, s.setHeight h = .ok (t, signals) ∧ t.cursorRowValid ∧
      t.m_update_actions = s.m_update_actions := by
  obtain ⟨t, signals, ht, hl, hc, _, hq⟩ := setHeight_spec s h (by omega)
  refine ⟨t, signals, ht, ?_, hq⟩
  unfold cursorRowValid height
  rw [hl, hc]
  by_cases hge : s.m_cursor_pos.y ≥ h
  · simp only [hge, if_true]; omega
  · simp only [hge, if_false]; omega

/-- A sequence of resizes to positive heights returns and keeps the row from going negative. -/
theorem run_setHeights (hs : List Int) (hpos : ∀ x ∈ hs, 1 ≤ x) (s : TerminalScreen)
    (hy : 0 ≤ s.m_cursor_pos.y) :
    ∃ t signals, s.run (hs.map Op.setHeight) = .ok (t, signals) ∧ 0 ≤ t.m_cursor_pos.y := by
  induction hs generalizing s with
  | nil => exact ⟨s, [], rfl, hy⟩
  | cons h hs ih =>
    obtain ⟨s1, g1, hs1, hv, _⟩ := setHeight_row s h (hpos h (by simp)) hy
    obtain ⟨t, g, ht, hty⟩ := ih (fun x hx => hpos x (by simp [hx])) s1 hv.1
    refine ⟨t, g1 ++ g, ?_, hty⟩
    have := run_append [Op.setHeight h] (hs.map Op.setHeight) s s1 t g1 g
      (run_single _ _ _ _ hs1) ht
    simpa using this

/-- C2: a call `setHeight(h)` with `h ≥ 1` returns, never changes the column, leaves a row that
fits (`row < h`) unchanged and clamps a row that no longer fits to `h - 1`; and starting from the
freshly constructed screen, after each call of every sequence of such calls the cursor row
satisfies `0 ≤ row < h` for the height `h` just requested. -/
theorem setHeight_cursor (palette : ColorPalette) :
    (∀ (s : TerminalScreen) (h : Int), 1 ≤ h →
      ∃ t signals, s.setHeight h = .ok (t, signals) ∧
        t.m_cursor_pos.x = s.m_cursor_pos.x ∧
        (s.m_cursor_pos.y < h → t.m_cursor_pos.y = s.m_cursor_pos.y) ∧
        (h ≤ s.m_cursor_pos.y → t.m_cursor_pos.y = h - 1)) ∧
    (∀ (hs : List Int) (h : Int), (∀ x ∈ hs, 1 ≤ x) → 1 ≤ h →
      ∃ s0 g0 t signals, construct palette = .ok (s0, g0) ∧
        s0.run ((hs ++ [h]).map Op.setHeight) = .ok (t, signals) ∧
        0 ≤ t.m_cursor_pos.y ∧ t.m_cursor_pos.y < h ∧ t.height = h) := by
  constructor
  · intro s h h1
    obtain ⟨t, signals, ht, _, hc, _⟩ := setHeight_spec s h (by omega)
    refine ⟨t, signals, ht, ?_, ?_, ?_⟩
    · rw [hc]; split <;> rfl
    · intro hlt
      rw [hc, if_neg (by omega)]
    · intro hge
      rw [hc, if_pos (by omega)]
  · intro hs h hpos h1
    obtain ⟨s0, hs0, _, hc0, _⟩ := construct_eq palette
    obtain ⟨s, g, hrun, hy⟩ := run_setHeights hs hpos s0 (by rw [hc0])
    obtain ⟨t, g2, ht, hv, _⟩ := setHeight_row s h h1 hy
    obtain ⟨t2, g3, ht2, hh, _⟩ := setHeight_spec s h (by omega)
    rw [ht] at ht2
    simp only [Except.ok.injEq, Prod.mk.injEq] at ht2
    obtain ⟨rfl, rfl⟩ := ht2
    refine ⟨s0, _, t, g ++ g2, hs0, ?_, hv.1, ?_, hh⟩
    · have := run_append (hs.map Op.setHeight) [Op.setHeight h] s0 s t g g2 hrun
        (run_single _ _ _ _ ht)
      simpa using this
    · have := hv.2
      unfold height at this
      rw [hh] at this
      exact this

/-- Witness of C2: on the example screen, whose cursor is on row 2, a resize to one line clamps
the row to 0; and the fresh screen resized to 3, 40 and then 2 lines has its row below 2. -/
theorem setHeight_cursor_witness :
    (∃ t signals, exampleScreen.setHeight 1 = .ok (t, signals) ∧
        t.m_cursor_pos.x = exampleScreen.m_cursor_pos.x ∧
        (exampleScreen.m_cursor_pos.y < 1 → t.m_cursor_pos.y = exampleScreen.m_cursor_pos.y) ∧
        ((1 : Int) ≤ exampleScreen.m_cursor_pos.y → t.m_cursor_pos.y = 1 - 1)) ∧
    (∃ s0 g0 t signals, construct examplePalette = .ok (s0, g0) ∧
        s0.run (([3, 40] ++ [2]).map Op.setHeight) = .ok (t, signals) ∧
        0 ≤ t.m_cursor_pos.y ∧ t.m_cursor_pos.y < 2 ∧ t.height = 2) :=
  ⟨(setHeight_cursor examplePalette).1 exampleScreen 1 (by decide),
   (setHeight_cursor examplePalette).2 [3, 40] 2 (by decide) (by decide)⟩

/-! ## Line feed at the bottom row and the registration of scrolls -/

/-- Moving every line but the first one slot up and writing a value into the last slot. -/
theorem rotate_slots {α : Type} (l0 : α) (rest : List α) (v : α) :
    ((rest.take rest.length) ++ (l0 :: rest).drop rest.length).set rest.length v = rest ++ [v] := by
  have h1 : ((l0 :: rest).drop rest.length).length = 1 := by
    rw [List.length_drop]; simp
  obtain ⟨x, hx⟩ := List.length_eq_one.mp h1
  rw [hx, List.take_length]
  simp

/-- With the cursor on the last row, `newLine` returns: the first line is cleared and becomes the
last one, the others move up, and a scroll-up at the cursor row is registered. -/
theorem newLine_bottom (s : TerminalScreen) (l0 : TextSegmentLine) (rest : List TextSegmentLine)
    (hl : s.m_screen_lines = l0 :: rest) (hy : s.m_cursor_pos.y = rest.length) :
    s.newLine = .ok (doScrollOneLineUpAt { s with m_screen_lines := rest ++ [l0.clear] }
      s.m_cursor_pos.y) := by
  have hcond : s.m_cursor_pos.y = ((l0 :: rest).length : Int) - 1 := by
    rw [hy, List.length_cons]; push_cast; ring
  have hmm : (0 : Int) ≤ rest.length ∧ (rest.length : Int) + 1 ≤ ((l0 :: rest).length : Nat) := by
    rw [List.length_cons]; push_cast; omega
  have hrep : (0 : Int) ≤ rest.length ∧ (rest.length : Int) <
      ((List.take rest.length rest ++ List.drop rest.length (l0 :: rest)).length : Nat) := by
    rw [List.length_append, List.length_take, List.length_drop, List.length_cons]
    push_cast; omega
  unfold newLine
  rw [hl, if_pos hcond, hy]
  simp only [QVector.at_, QVector.memmove, QVector.replace, bind, Except.bind, pure, Except.pure,
    Int.toNat_zero, List.getElem?_cons_zero, lt_self_iff_false, if_false, hmm, hrep,
    and_self, if_true, Int.toNat_ofNat, List.drop_succ_cons, List.drop_zero, rotate_slots]

/-- With the cursor elsewhere, `newLine` moves it one row down, to column 0. -/
theorem newLine_above (s : TerminalScreen)
    (hy : s.m_cursor_pos.y ≠ (s.m_screen_lines.length : Int) - 1) :
    s.newLine = .ok (moveCursorHome (moveCursorDown s)) := by
  unfold newLine
  rw [if_neg hy]
  rfl

/-- Registering a scroll-up at a line that is not negative keeps the queue one of such entries. -/
theorem registerScroll_scrollUpsOnly (line : Int) (h0 : 0 ≤ line) (q : List UpdateAction)
    (hq : scrollUpsOnly q) : scrollUpsOnly (registerScroll .ScrollUp line q) := by
  unfold registerScroll
  cases hlast : q.getLast? with
  | none =>
    intro a ha
    simp only [List.mem_append, List.mem_singleton] at ha
    rcases ha with ha | rfl
    · exact hq a ha
    · exact ⟨rfl, h0⟩
  | some last =>
    have hsplit : q.dropLast ++ [last] = q := List.dropLast_append_getLast? last hlast
    have hlastq : last ∈ q := by rw [← hsplit]; simp
    by_cases hc : last.action = UpdateAction.Action.ScrollUp ∧ last.from_line = line
    · simp only [hc, and_self, if_true]
      intro a ha
      simp only [List.mem_append, List.mem_singleton] at ha
      rcases ha with ha | rfl
      · exact hq a (List.dropLast_subset q ha)
      · exact ⟨rfl, h0⟩
    · simp only [hc, if_false]
      intro a ha
      simp only [List.mem_append, List.mem_singleton] at ha
      rcases ha with ha | rfl
      · exact hq a ha
      · exact ⟨rfl, h0⟩

/-- A queue of scroll-ups registered at lines that are not negative is flushed without a
remainder by zero. -/
theorem dispatchLoop_scrollUpsOnly (height : Int) (q : List UpdateAction) (hq : scrollUpsOnly q) :
    ∃ signals, dispatchLoop height q = .ok signals := by
  induction q with
  | nil => exact ⟨[], rfl⟩
  | cons a rest ih =>
    obtain ⟨more, hmore⟩ := ih (fun b hb => hq b (List.mem_cons_of_mem a hb))
    obtain ⟨hact, hline⟩ := hq a (List.mem_cons_self a rest)
    have hne : ¬ (a.from_line + 1 = 0) := by omega
    simp only [dispatchLoop, dispatchAction, hact, hne, if_false, hmore, bind, Except.bind, pure,
      Except.pure]
    exact ⟨_, rfl⟩

/-- A row inside the buffer addresses a line. -/
theorem line_at_cursor_ok (s : TerminalScreen) (hv : s.cursorRowValid) :
    ∃ line, s.line_at_cursor = .ok line := by
  obtain ⟨h0, h1⟩ := hv
  unfold height at h1
  have hlt : s.m_cursor_pos.y.toNat < s.m_screen_lines.length := by omega
  unfold line_at_cursor QVector.at_
  rw [if_neg (by omega), List.getElem?_eq_getElem hlt]
  exact ⟨_, rfl⟩

/-- Writing back the line of the cursor row changes neither the number of lines, nor the cursor,
nor the queue. -/
theorem store_line_at_cursor_frame (s : TerminalScreen) (line : TextSegmentLine) :
    (s.store_line_at_cursor line).height = s.height ∧
      (s.store_line_at_cursor line).m_cursor_pos = s.m_cursor_pos ∧
      (s.store_line_at_cursor line).m_update_actions = s.m_update_actions := by
  simp [store_line_at_cursor, height]

/-! ## The cursor-row invariant -/

/-- A call in the band `[30, 50)` of `setColor` returns and touches the current style only. -/
theorem setColor_frame (s : TerminalScreen) (bold : Bool) (color : Nat)
    (hband : 30 ≤ color ∧ color < 50) :
    ∃ t, s.setColor bold color = .ok t ∧ t.m_screen_lines = s.m_screen_lines ∧
      t.m_cursor_pos = s.m_cursor_pos ∧ t.m_update_actions = s.m_update_actions := by
  unfold setColor
  rw [if_neg (by simp only [ge_iff_le, not_not]; exact hband)]
  by_cases h38 : color < 38
  · rw [if_pos h38]
    cases bold <;> exact ⟨_, rfl, rfl, rfl, rfl⟩
  · rw [if_neg h38]
    by_cases h39 : color = 39
    · rw [if_pos h39]; exact ⟨_, rfl, rfl, rfl, rfl⟩
    · rw [if_neg h39]
      refine ⟨_, rfl, ?_, ?_, ?_⟩ <;> (cases bold <;> (dsimp only; split_ifs <;> rfl))

/-- Every operation other than `moveCursorUp` and `moveCursorDown` (with a positive height for
`setHeight` and an accepted code for `setColor`) returns and keeps both the cursor row inside the
buffer and the queue free of entries whose flush would fail. -/
theorem step_keepsRow (s : TerminalScreen) (op : Op) (hv : s.cursorRowValid)
    (hq : scrollUpsOnly s.m_update_actions) (hop : op.keepsRow = true) :
    ∃ t signals, s.step op = .ok (t, signals) ∧ t.cursorRowValid ∧
      scrollUpsOnly t.m_update_actions := by
  cases op with
  | moveCursorHome => exact ⟨_, _, rfl, hv, hq⟩
  | moveCursorUp => simp [Op.keepsRow] at hop
  | moveCursorDown => simp [Op.keepsRow] at hop
  | moveCursorLeft => exact ⟨_, _, rfl, hv, hq⟩
  | moveCursorRight => exact ⟨_, _, rfl, hv, hq⟩
  | backspace =>
    refine ⟨_, _, rfl, ?_, ?_⟩
    · unfold backspace; split
      · exact hv
      · exact hv
    · unfold backspace; split
      · exact hq
      · exact hq
  | newLine =>
    by_cases hy : s.m_cursor_pos.y = (s.m_screen_lines.length : Int) - 1
    · obtain ⟨h0, h1⟩ := hv
      unfold height at h1
      cases hl : s.m_screen_lines with
      | nil => rw [hl] at h1; simp at h1; omega
      | cons l0 rest =>
        have hyr : s.m_cursor_pos.y = rest.length := by
          rw [hy, hl, List.length_cons]; push_cast; ring
        have hstep : s.step Op.newLine = .ok (doScrollOneLineUpAt
            { s with m_screen_lines := rest ++ [l0.clear] } s.m_cursor_pos.y, []) := by
          simp only [step, newLine_bottom s l0 rest hl hyr]; rfl
        refine ⟨_, _, hstep, ⟨h0, ?_⟩, registerScroll_scrollUpsOnly _ h0 _ hq⟩
        show s.m_cursor_pos.y < ((rest ++ [l0.clear]).length : Int)
        rw [hyr, List.length_append]; simp
    · have hstep : s.step Op.newLine = .ok (moveCursorHome (moveCursorDown s), []) := by
        simp only [step, newLine_above s hy]; rfl
      obtain ⟨h0, h1⟩ := hv
      unfold height at h1
      refine ⟨_, _, hstep, ⟨?_, ?_⟩, hq⟩
      · show 0 ≤ s.m_cursor_pos.y + 1
        omega
      · show s.m_cursor_pos.y + 1 < (s.m_screen_lines.length : Int)
        omega
  | insertAtCursor text =>
    obtain ⟨line, hline⟩ := line_at_cursor_ok s hv
    have hstep : s.step (Op.insertAtCursor text) = .ok (store_line_at_cursor
        { s with m_cursor_pos := { s.m_cursor_pos with x := s.m_cursor_pos.x + text.length } }
        (line.insertAtPos (s.m_cursor_pos.x + text.length) text s.m_current_text_style), []) := by
      simp only [step, insertAtCursor, hline, bind, Except.bind, pure, Except.pure]; rfl
    refine ⟨_, _, hstep, ?_, hq⟩
    obtain ⟨h0, h1⟩ := hv
    unfold height at h1
    refine ⟨h0, ?_⟩
    show s.m_cursor_pos.y < ((s.m_screen_lines.set _ _).length : Int)
    rw [List.length_set]; exact h1
  | eraseLine =>
    obtain ⟨line, hline⟩ := line_at_cursor_ok s hv
    have hstep : s.step Op.eraseLine = .ok (store_line_at_cursor s line.clear, []) := by
      simp only [step, eraseLine, hline, bind, Except.bind, pure, Except.pure]; rfl
    refine ⟨_, _, hstep, ?_, hq⟩
    obtain ⟨hh, hc, _⟩ := store_line_at_cursor_frame s line.clear
    unfold cursorRowValid
    rw [hh, hc]; exact hv
  | eraseFromPresentationPositionToEndOfLine =>
    obtain ⟨line, hline⟩ := line_at_cursor_ok s hv
    have hstep : s.step Op.eraseFromPresentationPositionToEndOfLine =
        .ok (store_line_at_cursor s (line.removeCharFromPos s.m_cursor_pos.x), []) := by
      simp only [step, eraseFromPresentationPositionToEndOfLine, hline, bind, Except.bind, pure,
        Except.pure]; rfl
    refine ⟨_, _, hstep, ?_, hq⟩
    obtain ⟨hh, hc, _⟩ :=
      store_line_at_cursor_frame s (line.removeCharFromPos s.m_cursor_pos.x)
    unfold cursorRowValid
    rw [hh, hc]; exact hv
  | setColor bold color =>
    have hband : 30 ≤ color ∧ color < 50 := by simpa [Op.keepsRow] using hop
    obtain ⟨t, ht, hl, hc, hqq⟩ := setColor_frame s bold color hband
    have hstep : s.step (Op.setColor bold color) = .ok (t, []) := by
      simp only [step, ht]; rfl
    refine ⟨t, _, hstep, ?_, by rw [hqq]; exact hq⟩
    unfold cursorRowValid height
    rw [hl, hc]; exact hv
  | resetStyle => exact ⟨_, _, rfl, hv, hq⟩
  | setHeight h =>
    have h1 : 1 ≤ h := by simpa [Op.keepsRow] using hop
    obtain ⟨t, signals, ht, htv, htq⟩ := setHeight_row s h h1 hv.1
    exact ⟨t, signals, ht, htv, by rw [htq]; exact hq⟩
  | setWidth w => exact ⟨_, _, rfl, hv, hq⟩
  | dispatchChanges =>
    obtain ⟨signals, hsig⟩ := dispatchLoop_scrollUpsOnly s.height s.m_update_actions hq
    have hstep : s.step Op.dispatchChanges = .ok ({ s with m_update_actions := [] },
        signals ++ [Signal.dispatchLineChanges, Signal.dispatchTextSegmentChanges]) := by
      simp only [step, dispatchChanges, hsig, bind, Except.bind, pure, Except.pure]
    refine ⟨_, _, hstep, hv, ?_⟩
    intro a ha
    simp at ha

/-- A sequence of such operations returns and keeps the cursor row inside the buffer. -/
theorem run_keepsRow (ops : List Op) (hops : ∀ op ∈ ops, op.keepsRow = true)
    (s : TerminalScreen) (hv : s.cursorRowValid) (hq : scrollUpsOnly s.m_update_actions) :
    ∃ t signals, s.run ops = .ok (t, signals) ∧ t.cursorRowValid ∧
      scrollUpsOnly t.m_update_actions := by
  induction ops generalizing s with
  | nil => exact ⟨s, [], rfl, hv, hq⟩
  | cons op ops ih =>
    obtain ⟨s1, g1, h1, hv1, hq1⟩ := step_keepsRow s op hv hq (hops op (by simp))
    obtain ⟨t, g, ht, hvt, hqt⟩ := ih (fun o ho => hops o (by simp [ho])) s1 hv1 hq1
    refine ⟨t, g1 ++ g, ?_, hvt, hqt⟩
    simp [run, h1, ht, bind, Except.bind, pure, Except.pure]

/-- C3, as amended: starting from the freshly constructed screen (height 25, cursor row 0), every
finite sequence of public operations other than `moveCursorUp` and `moveCursorDown` (with
`setHeight` called with a positive height and `setColor` with a code in `[30, 50)`) returns, and
after it the cursor row is at least 0 and strictly less than `height()`. -/
theorem cursor_row_invariant (palette : ColorPalette) (ops : List Op)
    (hops : ∀ op ∈ ops, op.keepsRow = true) :
    ∃ s0 g0 t signals, construct palette = .ok (s0, g0) ∧ s0.height = 25 ∧
      s0.m_cursor_pos.y = 0 ∧ s0.run ops = .ok (t, signals) ∧
      0 ≤ t.m_cursor_pos.y ∧ t.m_cursor_pos.y < t.height := by
  obtain ⟨s0, hs0, hl0, hc0, hq0, _⟩ := construct_eq palette
  have hh : s0.height = 25 := by unfold height; rw [hl0]; rfl
  have hv0 : s0.cursorRowValid := by
    unfold cursorRowValid; rw [hh, hc0]; decide
  have hqs : scrollUpsOnly s0.m_update_actions := by
    rw [hq0]; intro a ha; simp at ha
  obtain ⟨t, g, ht, hvt, _⟩ := run_keepsRow ops hops s0 hv0 hqs
  exact ⟨s0, _, t, g, hs0, hh, by rw [hc0], ht, hvt.1, hvt.2⟩

/-- Witness of C3 as amended: a line feed, some text, a resize to two lines and a flush. -/
theorem cursor_row_invariant_witness :
    ∃ s0 g0 t signals, construct examplePalette = .ok (s0, g0) ∧ s0.height = 25 ∧
      s0.m_cursor_pos.y = 0 ∧
      s0.run [Op.newLine, Op.insertAtCursor ['h', 'i'], Op.setHeight 2, Op.dispatchChanges] =
        .ok (t, signals) ∧
      0 ≤ t.m_cursor_pos.y ∧ t.m_cursor_pos.y < t.height :=
  cursor_row_invariant examplePalette
    [Op.newLine, Op.insertAtCursor ['h', 'i'], Op.setHeight 2, Op.dispatchChanges] (by decide)

/-- Counterexample to C3 as stated: on the freshly constructed screen a single `moveCursorUp`
returns with the cursor on row -1, and 25 calls of `moveCursorDown` return with the cursor on
row 25 of a buffer of 25 lines; either way the row is outside `[0, height())`. -/
theorem cursor_row_escapes :
    ∃ s0 g0 t g u g1, construct examplePalette = .ok (s0, g0) ∧
      s0.run [Op.moveCursorUp] = .ok (t, g) ∧
      t.m_cursor_pos.y = -1 ∧ t.height = 25 ∧ ¬ t.cursorRowValid ∧
      s0.run (List.replicate 25 Op.moveCursorDown) = .ok (u, g1) ∧
      u.m_cursor_pos.y = 25 ∧ u.height = 25 ∧ ¬ u.cursorRowValid :=
  ⟨_, _, _, _, _, _, rfl, rfl, rfl, rfl, fun h => absurd h.1 (by decide), rfl, rfl, rfl,
    fun h => absurd h.2 (by decide)⟩

/-! ## Coalescing of scroll-ups -/

/-- A line feed on the bottom row of a buffer that is not empty returns, keeps the cursor and
the number of lines, and registers one scroll-up at the cursor row. -/
theorem newLine_bottom_queue (s : TerminalScreen) (hne : 1 ≤ s.m_screen_lines.length)
    (hy : s.m_cursor_pos.y = (s.m_screen_lines.length : Int) - 1) :
    ∃ t, s.newLine = .ok t ∧ t.m_cursor_pos = s.m_cursor_pos ∧
      t.m_screen_lines.length = s.m_screen_lines.length ∧
      t.m_update_actions = registerScroll .ScrollUp s.m_cursor_pos.y s.m_update_actions := by
  cases hl : s.m_screen_lines with
  | nil => rw [hl] at hne; simp at hne
  | cons l0 rest =>
    have hyr : s.m_cursor_pos.y = rest.length := by
      rw [hy, hl, List.length_cons]; push_cast; ring
    refine ⟨_, newLine_bottom s l0 rest hl hyr, rfl, ?_, rfl⟩
    show (rest ++ [l0.clear]).length = (l0 :: rest).length
    simp

/-- Line feeds on the bottom row add up in the count of the entry that ends the queue. -/
theorem newLine_repeat_count (k : Nat) (s : TerminalScreen) (c : Int)
    (hne : 1 ≤ s.m_screen_lines.length)
    (hy : s.m_cursor_pos.y = (s.m_screen_lines.length : Int) - 1)
    (hq : s.m_update_actions = [⟨.ScrollUp, s.m_cursor_pos.y, c⟩]) :
    ∃ t, s.newLine_repeat k = .ok t ∧ t.m_cursor_pos = s.m_cursor_pos ∧
      t.m_screen_lines.length = s.m_screen_lines.length ∧
      t.m_update_actions = [⟨.ScrollUp, s.m_cursor_pos.y, c + k⟩] := by
  induction k generalizing s c with
  | zero => exact ⟨s, rfl, rfl, rfl, by simpa using hq⟩
  | succ k ih =>
    obtain ⟨s1, h1, hc1, hl1, hq1⟩ := newLine_bottom_queue s hne hy
    have hq1b : s1.m_update_actions = [⟨.ScrollUp, s1.m_cursor_pos.y, c + 1⟩] := by
      rw [hq1, hq, hc1]; simp [registerScroll]
    obtain ⟨t, ht, hct, hlt, hqt⟩ := ih s1 (c + 1) (by rw [hl1]; exact hne)
      (by rw [hc1, hl1]; exact hy) hq1b
    refine ⟨t, ?_, by rw [hct, hc1], by rw [hlt, hl1], ?_⟩
    · simp only [newLine_repeat, h1, bind, Except.bind]; exact ht
    · rw [hqt, hc1]; push_cast; congr 2; ring

/-- C4: for every height `H ≥ 1` and every `k ≥ 1`, starting with an empty pending queue and
the cursor on the bottom row `r = H - 1`, `k` consecutive `newLine` calls return and leave
exactly one queued entry `ScrollUp(from_line = r, count = k)`; the following `dispatchChanges`
returns and emits `scrollUp(r, k mod (r + 1))` when `k mod (r + 1)` is nonzero and no scroll
notification when it is zero, followed by the two change notifications. -/
theorem newLine_coalesce (s : TerminalScreen) (H k : Nat) (hH : 1 ≤ H) (hk : 1 ≤ k)
    (hlen : s.m_screen_lines.length = H) (hq : s.m_update_actions = [])
    (hy : s.m_cursor_pos.y = (H : Int) - 1) :
    ∃ t u signals, s.newLine_repeat k = .ok t ∧
      t.m_update_actions = [⟨.ScrollUp, (H : Int) - 1, k⟩] ∧
      t.dispatchChanges = .ok (u, signals) ∧
      signals = (if k % (H - 1 + 1) = 0 then []
          else [Signal.scrollUp ((H : Int) - 1) ((k % (H - 1 + 1) : Nat) : Int)]) ++
        [Signal.dispatchLineChanges, Signal.dispatchTextSegmentChanges] := by
  obtain ⟨j, rfl⟩ : ∃ j, k = j + 1 := ⟨k - 1, by omega⟩
  have hne : 1 ≤ s.m_screen_lines.length := by omega
  have hy2 : s.m_cursor_pos.y = (s.m_screen_lines.length : Int) - 1 := by rw [hy, hlen]
  obtain ⟨s1, h1, hc1, hl1, hq1⟩ := newLine_bottom_queue s hne hy2
  have hq1b : s1.m_update_actions = [⟨.ScrollUp, s1.m_cursor_pos.y, 1⟩] := by
    rw [hq1, hq, hc1]; simp [registerScroll]
  obtain ⟨t, ht, hct, hlt, hqt⟩ := newLine_repeat_count j s1 1 (by rw [hl1]; exact hne)
    (by rw [hc1, hl1]; exact hy2) hq1b
  have hqt2 : t.m_update_actions = [⟨.ScrollUp, (H : Int) - 1, ((j + 1 : Nat) : Int)⟩] := by
    rw [hqt, hc1, hy]; push_cast; congr 2; ring
  have hmod : ((H : Int) - 1 + 1) = (H : Int) := by ring
  have hH0 : ¬ ((H : Int) = 0) := by omega
  have hnat : H - 1 + 1 = H := by omega
  refine ⟨t, { t with m_update_actions := [] }, _, ?_, hqt2, ?_, rfl⟩
  · simp only [newLine_repeat, h1, bind, Except.bind]; exact ht
  · have htm : Int.tmod ((j + 1 : Nat) : Int) (H : Int) = (((j + 1) % H : Nat) : Int) :=
      (Int.ofNat_tmod _ _).symm
    simp only [dispatchChanges, hqt2, dispatchLoop, dispatchAction, hmod, hH0, if_false, bind,
      Except.bind, pure, Except.pure, hnat, htm, List.append_nil]
    by_cases hz : (j + 1) % H = 0
    · have hz2 : (((j + 1) % H : Nat) : Int) = 0 := by exact_mod_cast hz
      rw [if_pos hz, if_neg (not_not.mpr hz2)]
    · have hz2 : (((j + 1) % H : Nat) : Int) ≠ 0 := by exact_mod_cast hz
      rw [if_neg hz, if_pos hz2]

/-- Witness of C4: three line feeds on the bottom row of the 25-line screen are flushed as
`scrollUp(24, 3)`, and four line feeds on the bottom row of a 4-line screen emit no scroll. -/
theorem newLine_coalesce_witness :
    (∃ t u signals,
      ({ exampleFresh with m_cursor_pos := ⟨0, 24⟩ } : TerminalScreen).newLine_repeat 3 = .ok t ∧
      t.m_update_actions = [⟨.ScrollUp, ((25 : Nat) : Int) - 1, (3 : Nat)⟩] ∧
      t.dispatchChanges = .ok (u, signals) ∧
      signals = (if 3 % (25 - 1 + 1) = 0 then []
          else [Signal.scrollUp (((25 : Nat) : Int) - 1) ((3 % (25 - 1 + 1) : Nat) : Int)]) ++
        [Signal.dispatchLineChanges, Signal.dispatchTextSegmentChanges]) ∧
    (∃ t u signals,
      ({ exampleFresh with m_screen_lines := newLines 0 4, m_cursor_pos := ⟨0, 3⟩ } :
        TerminalScreen).newLine_repeat 4 = .ok t ∧
      t.m_update_actions = [⟨.ScrollUp, ((4 : Nat) : Int) - 1, (4 : Nat)⟩] ∧
      t.dispatchChanges = .ok (u, signals) ∧
      signals = (if 4 % (4 - 1 + 1) = 0 then []
          else [Signal.scrollUp (((4 : Nat) : Int) - 1) ((4 % (4 - 1 + 1) : Nat) : Int)]) ++
        [Signal.dispatchLineChanges, Signal.dispatchTextSegmentChanges]) :=
  ⟨newLine_coalesce { exampleFresh with m_cursor_pos := ⟨0, 24⟩ } 25 3 (by decide) (by decide)
    rfl rfl rfl,
   newLine_coalesce { exampleFresh with m_screen_lines := newLines 0 4, m_cursor_pos := ⟨0, 3⟩ }
    4 4 (by decide) (by decide) rfl rfl rfl⟩

/-! ## The registration rule -/

/-- Registration when the last entry has the direction and the line registered: its count grows
by one and the entries before it stay. -/
theorem registerScroll_merge (direction : UpdateAction.Action) (line : Int)
    (front : List UpdateAction) (last : UpdateAction)
    (hd : last.action = direction) (hline : last.from_line = line) :
    registerScroll direction line (front ++ [last]) =
      front ++ [⟨direction, line, last.count + 1⟩] := by
  unfold registerScroll
  rw [List.getLast?_concat]
  simp only [hd, hline, and_self, if_true, List.dropLast_concat]

/-- Registration when the last entry differs in direction or line: a new entry with count 1 is
appended. -/
theorem registerScroll_append (direction : UpdateAction.Action) (line : Int)
    (front : List UpdateAction) (last : UpdateAction)
    (hne : ¬ (last.action = direction ∧ last.from_line = line)) :
    registerScroll direction line (front ++ [last]) =
      front ++ [last] ++ [⟨direction, line, 1⟩] := by
  unfold registerScroll
  rw [List.getLast?_concat]
  simp only [hne, if_false]

/-- The registration rule for either direction. -/
theorem registerScroll_rule (direction : UpdateAction.Action) (line : Int)
    (q : List UpdateAction) :
    (∀ front last, q = front ++ [last] → last.action = direction → last.from_line = line →
      registerScroll direction line q = front ++ [⟨direction, line, last.count + 1⟩] ∧
      (registerScroll direction line q).length = q.length) ∧
    ((q = [] ∨ ∃ front last, q = front ++ [last] ∧
        ¬ (last.action = direction ∧ last.from_line = line)) →
      registerScroll direction line q = q ++ [⟨direction, line, 1⟩]) ∧
    (∀ i, i + 1 < (registerScroll direction line q).length →
      (registerScroll direction line q)[i]? = q[i]?) := by
  refine ⟨?_, ?_, ?_⟩
  · intro front last hq hd hline
    subst hq
    rw [registerScroll_merge direction line front last hd hline]
    simp
  · rintro (rfl | ⟨front, last, rfl, hne⟩)
    · rfl
    · exact registerScroll_append direction line front last hne
  · intro i hi
    rcases List.eq_nil_or_concat q with rfl | ⟨front, last, rfl⟩
    · simp [registerScroll] at hi
    · rw [List.concat_eq_append] at hi ⊢
      by_cases hc : last.action = direction ∧ last.from_line = line
      · rw [registerScroll_merge direction line front last hc.1 hc.2] at hi ⊢
        have hlt : i < front.length := by simpa using hi
        rw [List.getElem?_append_left hlt, List.getElem?_append_left hlt]
      · rw [registerScroll_append direction line front last hc] at hi ⊢
        have hlt : i < (front ++ [last]).length := by simpa using hi
        rw [List.getElem?_append_left hlt]

/-- C5: for every pending queue `q` and line `n`, `doScrollOneLineUpAt(n)` (resp.
`doScrollOneLineDownAt(n)`) increments the count of the last entry by one and keeps the queue
length when `q` is not empty and its last entry is a `ScrollUp` (resp. `ScrollDown`) with
`from_line == n`; otherwise it appends a new entry of that direction with `from_line = n` and
`count = 1`.  In both cases all entries other than the last one of the result are unchanged, and
nothing but the queue is touched. -/
theorem doScrollOneLine_rule (s : TerminalScreen) (n : Int) :
    ((∀ front last, s.m_update_actions = front ++ [last] →
        last.action = .ScrollUp → last.from_line = n →
        (s.doScrollOneLineUpAt n).m_update_actions = front ++ [⟨.ScrollUp, n, last.count + 1⟩] ∧
        (s.doScrollOneLineUpAt n).m_update_actions.length = s.m_update_actions.length) ∧
      ((s.m_update_actions = [] ∨ ∃ front last, s.m_update_actions = front ++ [last] ∧
          ¬ (last.action = .ScrollUp ∧ last.from_line = n)) →
        (s.doScrollOneLineUpAt n).m_update_actions = s.m_update_actions ++ [⟨.ScrollUp, n, 1⟩]) ∧
      (∀ i, i + 1 < (s.doScrollOneLineUpAt n).m_update_actions.length →
        (s.doScrollOneLineUpAt n).m_update_actions[i]? = s.m_update_actions[i]?) ∧
      (s.doScrollOneLineUpAt n).m_screen_lines = s.m_screen_lines ∧
      (s.doScrollOneLineUpAt n).m_cursor_pos = s.m_cursor_pos ∧
      (s.doScrollOneLineUpAt n).m_current_text_style = s.m_current_text_style) ∧
    ((∀ front last, s.m_update_actions = front ++ [last] →
        last.action = .ScrollDown → last.from_line = n →
        (s.doScrollOneLineDownAt n).m_update_actions =
          front ++ [⟨.ScrollDown, n, last.count + 1⟩] ∧
        (s.doScrollOneLineDownAt n).m_update_actions.length = s.m_update_actions.length) ∧
      ((s.m_update_actions = [] ∨ ∃ front last, s.m_update_actions = front ++ [last] ∧
          ¬ (last.action = .ScrollDown ∧ last.from_line = n)) →
        (s.doScrollOneLineDownAt n).m_update_actions =
          s.m_update_actions ++ [⟨.ScrollDown, n, 1⟩]) ∧
      (∀ i, i + 1 < (s.doScrollOneLineDownAt n).m_update_actions.length →
        (s.doScrollOneLineDownAt n).m_update_actions[i]? = s.m_update_actions[i]?) ∧
      (s.doScrollOneLineDownAt n).m_screen_lines = s.m_screen_lines ∧
      (s.doScrollOneLineDownAt n).m_cursor_pos = s.m_cursor_pos ∧
      (s.doScrollOneLineDownAt n).m_current_text_style = s.m_current_text_style) := by
  obtain ⟨u1, u2, u3⟩ := registerScroll_rule .ScrollUp n s.m_update_actions
  obtain ⟨d1, d2, d3⟩ := registerScroll_rule .ScrollDown n s.m_update_actions
  exact ⟨⟨u1, u2, u3, rfl, rfl, rfl⟩, ⟨d1, d2, d3, rfl, rfl, rfl⟩⟩

/-- Witness of C5: a third scroll-up at line 2 merges into `ScrollUp(2, 5)`, and a scroll-down
at line 2 is appended after it. -/
theorem doScrollOneLine_rule_witness :
    (({ exampleScreen with m_update_actions := [⟨.ScrollUp, 2, 5⟩] } :
        TerminalScreen).doScrollOneLineUpAt 2).m_update_actions = [] ++ [⟨.ScrollUp, 2, 5 + 1⟩] ∧
    (({ exampleScreen with m_update_actions := [⟨.ScrollUp, 2, 5⟩] } :
        TerminalScreen).doScrollOneLineDownAt 2).m_update_actions =
      [⟨.ScrollUp, 2, 5⟩] ++ [⟨.ScrollDown, 2, 1⟩] :=
  ⟨((doScrollOneLine_rule { exampleScreen with m_update_actions := [⟨.ScrollUp, 2, 5⟩] } 2).1.1
      [] ⟨.ScrollUp, 2, 5⟩ rfl rfl rfl).1,
   (doScrollOneLine_rule { exampleScreen with m_update_actions := [⟨.ScrollUp, 2, 5⟩] } 2).2.2.1
      (Or.inr ⟨[], ⟨.ScrollUp, 2, 5⟩, rfl, by decide⟩)⟩

/-! ## The flush -/

/-- For a count that is not negative the truncating remainder is the ordinary one. -/
theorem tmod_eq_emod_of_nonneg (a b : Int) (ha : 0 ≤ a) : Int.tmod a b = a % b := by
  rcases le_total 0 b with hb | hb
  · exact Int.tmod_eq_emod ha hb
  · have h1 : Int.tmod a b = Int.tmod a (-b) := (Int.tmod_neg a b).symm
    have h2 : a % b = a % (-b) := (Int.emod_neg a b).symm
    rw [h1, h2]
    exact Int.tmod_eq_emod ha (by omega)

/-- One turn of the loop emits the notification of the entry, when the modulus is not zero. -/
theorem dispatchAction_eq (height : Int) (a : UpdateAction) (hmod : a.modulus height ≠ 0) :
    dispatchAction height a = .ok (flushNotification height a).toList := by
  unfold dispatchAction flushNotification
  unfold UpdateAction.modulus at hmod ⊢
  cases hact : a.action with
  | ScrollUp =>
    rw [hact] at hmod
    simp only [hmod, if_false]
    by_cases hz : Int.tmod a.count (a.from_line + 1) = 0
    · simp [hz]
    · simp [hz]
  | ScrollDown =>
    rw [hact] at hmod
    simp only [hmod, if_false]
    by_cases hz : Int.tmod a.count (height - a.from_line) = 0
    · simp [hz]
    · simp [hz]

/-- The loop emits the notifications of the queue, when no modulus is zero. -/
theorem dispatchLoop_eq (height : Int) (q : List UpdateAction)
    (hmod : ∀ a ∈ q, a.modulus height ≠ 0) :
    dispatchLoop height q = .ok (flushNotifications height q) := by
  induction q with
  | nil => rfl
  | cons a rest ih =>
    have hrest := ih (fun b hb => hmod b (List.mem_cons_of_mem a hb))
    simp only [dispatchLoop, dispatchAction_eq height a (hmod a (List.mem_cons_self a rest)),
      hrest, bind, Except.bind, pure, Except.pure, flushNotifications, List.filterMap_cons]
    cases flushNotification height a <;> rfl

/-- The loop fails when some entry of the queue has a zero modulus. -/
theorem dispatchLoop_zero (height : Int) (q : List UpdateAction)
    (hzero : ∃ a ∈ q, a.modulus height = 0) :
    dispatchLoop height q = .error .DivisionByZero := by
  induction q with
  | nil => obtain ⟨a, ha, _⟩ := hzero; simp at ha
  | cons b rest ih =>
    by_cases hb : b.modulus height = 0
    · unfold UpdateAction.modulus at hb
      cases hact : b.action with
      | ScrollUp =>
        rw [hact] at hb
        have hz : b.from_line + 1 = 0 := hb
        simp only [dispatchLoop, dispatchAction, hact, hz, if_true, bind, Except.bind]
      | ScrollDown =>
        rw [hact] at hb
        have hz : height - b.from_line = 0 := hb
        simp only [dispatchLoop, dispatchAction, hact, hz, if_true, bind, Except.bind]
    · have hrest : dispatchLoop height rest = .error .DivisionByZero := by
        apply ih
        obtain ⟨a, ha, haz⟩ := hzero
        rcases List.mem_cons.mp ha with rfl | hmem
        · exact absurd haz hb
        · exact ⟨a, hmem, haz⟩
      rw [dispatchLoop, dispatchAction_eq height b hb, hrest]
      rfl

/-- Every notification of the flush is a scroll notification. -/
theorem flushNotifications_isScroll (height : Int) (q : List UpdateAction) :
    ∀ g ∈ flushNotifications height q, g.isScroll = true := by
  intro g hg
  unfold flushNotifications at hg
  rw [List.mem_filterMap] at hg
  obtain ⟨a, _, ha⟩ := hg
  unfold flushNotification at ha
  by_cases hz : Int.tmod a.count (a.modulus height) = 0
  · simp [hz] at ha
  · simp only [hz, if_false] at ha
    cases hact : a.action with
    | ScrollUp => rw [hact] at ha; cases ha; rfl
    | ScrollDown => rw [hact] at ha; cases ha; rfl

/-- C6: for every pending queue in which every modulus is nonzero, `dispatchChanges` returns and
the scroll notifications it emits are exactly, in queue insertion order,
`scrollUp(from_line, count mod (from_line + 1))` for each `ScrollUp` entry and
`scrollDown(from_line, count mod (height() - from_line))` for each `ScrollDown` entry, with the
entries whose reduced count is zero omitted; each entry yields at most one notification and no
other scroll notification is emitted.  Here `mod` is the `%` of the source, which for a count
that is not negative is the ordinary remainder. -/
theorem dispatchChanges_flush (s : TerminalScreen)
    (hmod : ∀ a ∈ s.m_update_actions, a.modulus s.height ≠ 0) :
    ∃ t signals, s.dispatchChanges = .ok (t, signals) ∧
      signals.filter Signal.isScroll = flushNotifications s.height s.m_update_actions ∧
      signals = flushNotifications s.height s.m_update_actions ++
        [Signal.dispatchLineChanges, Signal.dispatchTextSegmentChanges] ∧
      (flushNotifications s.height s.m_update_actions).length ≤ s.m_update_actions.length ∧
      (∀ a ∈ s.m_update_actions, 0 ≤ a.count →
        Int.tmod a.count (a.modulus s.height) = a.count % a.modulus s.height) := by
  refine ⟨{ s with m_update_actions := [] }, _, ?_, ?_, rfl, ?_, ?_⟩
  · simp only [dispatchChanges, dispatchLoop_eq s.height s.m_update_actions hmod, bind,
      Except.bind, pure, Except.pure]
  · rw [List.filter_append, List.filter_eq_self.mpr (flushNotifications_isScroll _ _)]
    simp [Signal.isScroll]
  · exact List.length_filterMap_le _ _
  · intro a _ h0
    exact tmod_eq_emod_of_nonneg _ _ h0

/-- Witness of C6: a queue of three entries on the three-line example screen; the second entry
has a zero reduced count and is left out. -/
theorem dispatchChanges_flush_witness :
    ∃ t signals,
      ({ exampleScreen with m_update_actions :=
          [⟨.ScrollUp, 2, 4⟩, ⟨.ScrollUp, 1, 2⟩, ⟨.ScrollDown, 0, 5⟩] } :
        TerminalScreen).dispatchChanges = .ok (t, signals) ∧
      signals = [Signal.scrollUp 2 1, Signal.scrollDown 0 2, Signal.dispatchLineChanges,
        Signal.dispatchTextSegmentChanges] := by
  obtain ⟨t, signals, h, _, hs, _⟩ := dispatchChanges_flush
    { exampleScreen with m_update_actions :=
        [⟨.ScrollUp, 2, 4⟩, ⟨.ScrollUp, 1, 2⟩, ⟨.ScrollDown, 0, 5⟩] } (by decide)
  exact ⟨t, signals, h, by rw [hs]; decide⟩

/-- The flush of a queue without a zero modulus: the call returns, empties the queue, emits the
scroll notifications and then each of the two change notifications once, and changes neither the
buffer lines, nor the cursor, nor the current style. -/
theorem dispatchChanges_of_moduli (s : TerminalScreen)
    (hmod : ∀ a ∈ s.m_update_actions, a.modulus s.height ≠ 0) :
    ∃ t scrolls, s.dispatchChanges =
        .ok (t, scrolls ++ [Signal.dispatchLineChanges, Signal.dispatchTextSegmentChanges]) ∧
      (∀ g ∈ scrolls, g.isScroll = true) ∧
      (scrolls ++ [Signal.dispatchLineChanges, Signal.dispatchTextSegmentChanges]).count
        Signal.dispatchLineChanges = 1 ∧
      (scrolls ++ [Signal.dispatchLineChanges, Signal.dispatchTextSegmentChanges]).count
        Signal.dispatchTextSegmentChanges = 1 ∧
      t.m_update_actions = [] ∧
      t.m_screen_lines = s.m_screen_lines ∧
      t.m_cursor_pos = s.m_cursor_pos ∧
      t.m_current_text_style = s.m_current_text_style := by
  have hscroll := flushNotifications_isScroll s.height s.m_update_actions
  have hcount : ∀ g : Signal, g.isScroll = false →
      (flushNotifications s.height s.m_update_actions).count g = 0 := by
    intro g hg
    rw [List.count_eq_zero]
    intro hmem
    rw [hscroll g hmem] at hg
    exact absurd hg (by decide)
  refine ⟨{ s with m_update_actions := [] }, flushNotifications s.height s.m_update_actions,
    ?_, hscroll, ?_, ?_, rfl, rfl, rfl, rfl⟩
  · simp only [dispatchChanges, dispatchLoop_eq s.height s.m_update_actions hmod, bind,
      Except.bind, pure, Except.pure]
  · rw [List.count_append, hcount Signal.dispatchLineChanges rfl]; decide
  · rw [List.count_append, hcount Signal.dispatchTextSegmentChanges rfl]; decide

/-! ## The queue of every state the screen can reach -/

/-- A queue of scroll-ups registered at lines that are not negative has no zero modulus. -/
theorem scrollUpsOnly_modulus (height : Int) (q : List UpdateAction) (hq : scrollUpsOnly q) :
    ∀ a ∈ q, a.modulus height ≠ 0 := by
  intro a ha
  obtain ⟨hact, hline⟩ := hq a ha
  unfold UpdateAction.modulus
  rw [hact]
  show a.from_line + 1 ≠ 0
  omega

/-- A resize that returns was called with a height that is not negative. -/
theorem setHeight_ok_nonneg (s : TerminalScreen) (h : Int) (r : TerminalScreen × List Signal)
    (heq : s.setHeight h = .ok r) : 0 ≤ h := by
  by_contra hneg
  have hgt : (s.m_screen_lines.length : Int) > h := by omega
  have hrem : (s.m_screen_lines.length : Int) - h > s.m_screen_lines.length := by omega
  simp only [setHeight, hgt, hrem, if_true, bind, Except.bind, throw, throwThe,
    MonadExceptOf.throw] at heq
  cases heq

/-- A line feed that returns registers its scroll-up, if any, at a line that is not negative:
the first line is read before anything is registered, so the buffer is not empty and the cursor
row, its last index, is not negative. -/
theorem newLine_scrollUpsOnly (s t : TerminalScreen) (hq : scrollUpsOnly s.m_update_actions)
    (heq : s.newLine = .ok t) : scrollUpsOnly t.m_update_actions := by
  by_cases hy : s.m_cursor_pos.y = (s.m_screen_lines.length : Int) - 1
  · cases hl : s.m_screen_lines with
    | nil =>
      rw [hl] at hy
      unfold newLine at heq
      rw [hl, if_pos hy] at heq
      simp only [QVector.at_, bind, Except.bind, lt_self_iff_false, if_false, Int.toNat_zero,
        List.getElem?_nil] at heq
      cases heq
    | cons l0 rest =>
      have hyr : s.m_cursor_pos.y = rest.length := by
        rw [hy, hl, List.length_cons]; push_cast; ring
      rw [newLine_bottom s l0 rest hl hyr] at heq
      simp only [Except.ok.injEq] at heq
      rw [← heq]
      exact registerScroll_scrollUpsOnly _ (by rw [hyr]; exact Int.natCast_nonneg _) _ hq
  · rw [newLine_above s hy] at heq
    simp only [Except.ok.injEq] at heq
    rw [← heq]
    exact hq

/-- A call that rewrites the line of the cursor row leaves the queue alone. -/
theorem line_op_queue (s t : TerminalScreen) (f : TextSegmentLine → TextSegmentLine)
    (g : TerminalScreen → TerminalScreen) (hg : ∀ u, (g u).m_update_actions = u.m_update_actions)
    (heq : (do let line ← s.line_at_cursor; pure (store_line_at_cursor (g s) (f line)) :
      Except Error TerminalScreen) = .ok t) :
    t.m_update_actions = s.m_update_actions := by
  cases hline : s.line_at_cursor with
  | error e => simp [hline, bind, Except.bind] at heq
  | ok line =>
    simp only [hline, bind, Except.bind, pure, Except.pure, Except.ok.injEq] at heq
    rw [← heq]
    exact hg s

/-- A call of `setColor` that returns leaves the queue alone. -/
theorem setColor_queue (s t : TerminalScreen) (bold : Bool) (color : Nat)
    (heq : s.setColor bold color = .ok t) : t.m_update_actions = s.m_update_actions := by
  by_cases hband : 30 ≤ color ∧ color < 50
  · obtain ⟨u, hu, _, _, hqu⟩ := setColor_frame s bold color hband
    rw [hu] at heq
    simp only [Except.ok.injEq] at heq
    rw [← heq]
    exact hqu
  · unfold setColor at heq
    rw [if_pos (by simpa using hband)] at heq
    cases heq

/-- Every public operation that returns keeps the queue one of scroll-ups registered at lines
that are not negative. -/
theorem step_scrollUpsOnly (s t : TerminalScreen) (op : Op) (g : List Signal)
    (hq : scrollUpsOnly s.m_update_actions) (heq : s.step op = .ok (t, g)) :
    scrollUpsOnly t.m_update_actions := by
  have hsame : ∀ u : TerminalScreen, u.m_update_actions = s.m_update_actions →
      (Except.ok (u, ([] : List Signal)) : Except Error _) = .ok (t, g) →
      scrollUpsOnly t.m_update_actions := by
    intro u hu h
    simp only [Except.ok.injEq, Prod.mk.injEq] at h
    rw [← h.1, hu]
    exact hq
  have hmap : ∀ r : Except Error TerminalScreen,
      (∀ u, r = .ok u → scrollUpsOnly u.m_update_actions) →
      r.map (fun u => (u, ([] : List Signal))) = .ok (t, g) →
      scrollUpsOnly t.m_update_actions := by
    intro r hr h
    cases r with
    | error e => cases h
    | ok u =>
      simp only [Except.map, Except.ok.injEq, Prod.mk.injEq] at h
      rw [← h.1]
      exact hr u rfl
  cases op with
  | moveCursorHome => exact hsame s.moveCursorHome rfl heq
  | moveCursorUp => exact hsame s.moveCursorUp rfl heq
  | moveCursorDown => exact hsame s.moveCursorDown rfl heq
  | moveCursorLeft => exact hsame s.moveCursorLeft rfl heq
  | moveCursorRight => exact hsame s.moveCursorRight rfl heq
  | backspace =>
    refine hsame s.backspace ?_ heq
    unfold backspace
    split <;> rfl
  | newLine => exact hmap _ (fun u hu => newLine_scrollUpsOnly s u hq hu) heq
  | insertAtCursor text =>
    refine hmap _ (fun u hu => ?_) heq
    have := line_op_queue s u (fun line => line.insertAtPos (s.m_cursor_pos.x + text.length) text
      s.m_current_text_style)
      (fun v => { v with m_cursor_pos := { v.m_cursor_pos with x := v.m_cursor_pos.x + text.length } })
      (fun _ => rfl) hu
    rw [this]; exact hq
  | eraseLine =>
    refine hmap _ (fun u hu => ?_) heq
    have := line_op_queue s u (fun line => line.clear) (fun v => v) (fun _ => rfl) hu
    rw [this]; exact hq
  | eraseFromPresentationPositionToEndOfLine =>
    refine hmap _ (fun u hu => ?_) heq
    have := line_op_queue s u (fun line => line.removeCharFromPos s.m_cursor_pos.x) (fun v => v)
      (fun _ => rfl) hu
    rw [this]; exact hq
  | setColor bold color =>
    refine hmap _ (fun u hu => ?_) heq
    rw [setColor_queue s u bold color hu]; exact hq
  | resetStyle => exact hsame s.resetStyle rfl heq
  | setHeight h =>
    have h0 := setHeight_ok_nonneg s h _ heq
    obtain ⟨u, gu, hu, _, _, _, hqu⟩ := setHeight_spec s h h0
    have hstep : s.setHeight h = .ok (t, g) := heq
    rw [hu] at hstep
    simp only [Except.ok.injEq, Prod.mk.injEq] at hstep
    rw [← hstep.1, hqu]
    exact hq
  | setWidth w => exact hsame (s.setWidth w) rfl heq
  | dispatchChanges =>
    have hstep : s.dispatchChanges = .ok (t, g) := heq
    unfold dispatchChanges at hstep
    cases hloop : dispatchLoop s.height s.m_update_actions with
    | error e => simp [hloop, bind, Except.bind] at hstep
    | ok signals =>
      simp only [hloop, bind, Except.bind, pure, Except.pure, Except.ok.injEq,
        Prod.mk.injEq] at hstep
      rw [← hstep.1]
      intro a ha
      simp at ha

/-- Every sequence of public operations that returns keeps the queue one of scroll-ups
registered at lines that are not negative. -/
theorem run_scrollUpsOnly (ops : List Op) (s t : TerminalScreen) (g : List Signal)
    (hq : scrollUpsOnly s.m_update_actions) (heq : s.run ops = .ok (t, g)) :
    scrollUpsOnly t.m_update_actions := by
  induction ops generalizing s t g with
  | nil =>
    simp only [run, Except.ok.injEq, Prod.mk.injEq] at heq
    rw [← heq.1]
    exact hq
  | cons op ops ih =>
    simp only [run, bind, Except.bind] at heq
    cases hstep : s.step op with
    | error e => simp [hstep] at heq
    | ok r =>
      obtain ⟨s1, g1⟩ := r
      simp only [hstep] at heq
      cases hrest : s1.run ops with
      | error e => simp [hrest] at heq
      | ok r2 =>
        obtain ⟨s2, g2⟩ := r2
        simp only [hrest, pure, Except.pure, Except.ok.injEq, Prod.mk.injEq] at heq
        rw [← heq.1]
        exact ih s1 s2 g2 (step_scrollUpsOnly s s1 op g1 hq hstep) hrest

/-- In every state reached from the constructor by public operations, the queue holds only
scroll-ups registered at lines that are not negative. -/
theorem reachable_scrollUpsOnly (palette : ColorPalette) (ops : List Op)
    (s0 s : TerminalScreen) (g0 g : List Signal) (hnew : construct palette = .ok (s0, g0))
    (hrun : s0.run ops = .ok (s, g)) : scrollUpsOnly s.m_update_actions := by
  obtain ⟨u, hu, _, _, hqu, _⟩ := construct_eq palette
  rw [hu] at hnew
  simp only [Except.ok.injEq, Prod.mk.injEq] at hnew
  refine run_scrollUpsOnly ops s0 s g ?_ hrun
  rw [← hnew.1, hqu]
  intro a ha
  simp at ha

/-- C7: in every state of the screen, that is every state reached from the constructor by a
sequence of public operations, `dispatchChanges` returns, leaves the pending-update queue empty
and emits exactly one 'lines changed' (`dispatchLineChanges`) and exactly one 'segments changed'
(`dispatchTextSegmentChanges`) notification, both after all scroll notifications, regardless of
the content of the queue; it does not change the buffer lines, the cursor or the current
style. -/
theorem dispatchChanges_frame (palette : ColorPalette) (ops : List Op)
    (s0 s : TerminalScreen) (g0 g : List Signal) (hnew : construct palette = .ok (s0, g0))
    (hrun : s0.run ops = .ok (s, g)) :
    ∃ t scrolls, s.dispatchChanges =
        .ok (t, scrolls ++ [Signal.dispatchLineChanges, Signal.dispatchTextSegmentChanges]) ∧
      (∀ x ∈ scrolls, x.isScroll = true) ∧
      (scrolls ++ [Signal.dispatchLineChanges, Signal.dispatchTextSegmentChanges]).count
        Signal.dispatchLineChanges = 1 ∧
      (scrolls ++ [Signal.dispatchLineChanges, Signal.dispatchTextSegmentChanges]).count
        Signal.dispatchTextSegmentChanges = 1 ∧
      t.m_update_actions = [] ∧
      t.m_screen_lines = s.m_screen_lines ∧
      t.m_cursor_pos = s.m_cursor_pos ∧
      t.m_current_text_style = s.m_current_text_style :=
  dispatchChanges_of_moduli s
    (scrollUpsOnly_modulus s.height s.m_update_actions
      (reachable_scrollUpsOnly palette ops s0 s g0 g hnew hrun))

/-- Witness of C7: the flush after a cursor-up, a resize to three lines, three cursor-downs to
the last row, two line feeds and a resize to one line on the fresh screen. -/
theorem dispatchChanges_frame_witness :
    ∃ s g, exampleFresh.run [Op.moveCursorUp, Op.setHeight 3, Op.moveCursorDown,
        Op.moveCursorDown, Op.moveCursorDown, Op.newLine, Op.newLine, Op.setHeight 1] =
        .ok (s, g) ∧
      ∃ t scrolls, s.dispatchChanges =
        .ok (t, scrolls ++ [Signal.dispatchLineChanges, Signal.dispatchTextSegmentChanges]) ∧
      t.m_update_actions = [] ∧ t.m_screen_lines = s.m_screen_lines := by
  obtain ⟨s, g, hrun⟩ : ∃ s g, exampleFresh.run [Op.moveCursorUp, Op.setHeight 3,
      Op.moveCursorDown, Op.moveCursorDown, Op.moveCursorDown, Op.newLine, Op.newLine,
      Op.setHeight 1] = .ok (s, g) := ⟨_, _, rfl⟩
  have hnew : construct examplePalette = .ok (exampleFresh, [Signal.linesInserted 25]) := rfl
  obtain ⟨t, scrolls, h, _, _, _, hq, hl, _⟩ :=
    dispatchChanges_frame examplePalette _ exampleFresh s _ g hnew hrun
  exact ⟨s, g, hrun, t, scrolls, h, hq, hl⟩

/-! ## Row rotation -/

/-- C8: for every buffer of height `H ≥ 1` with lines `l0 :: rest` and the cursor on row
`H - 1`, `newLine` returns and the buffer is `rest ++ [l0']`, where `l0'` is the line object `l0`
after `clear()` (same identity, no segments); the buffer length is still `H`, the lines of `rest`
keep their identity, content and order (slot `i` holds what slot `i + 1` held), and the result is
a permutation of the original line objects. -/
theorem newLine_rotates (s : TerminalScreen) (l0 : TextSegmentLine)
    (rest : List TextSegmentLine) (hl : s.m_screen_lines = l0 :: rest)
    (hy : s.m_cursor_pos.y = s.height - 1) :
    ∃ t, s.newLine = .ok t ∧
      t.m_screen_lines = rest ++ [l0.clear] ∧
      l0.clear.id = l0.id ∧ l0.clear.segments = [] ∧
      t.m_screen_lines.length = s.m_screen_lines.length ∧
      (∀ i, i < rest.length → t.m_screen_lines[i]? = s.m_screen_lines[i + 1]?) ∧
      (t.m_screen_lines.map TextSegmentLine.id).Perm (s.m_screen_lines.map TextSegmentLine.id) ∧
      t.m_cursor_pos = s.m_cursor_pos := by
  have hyr : s.m_cursor_pos.y = rest.length := by
    rw [hy]; unfold height; rw [hl, List.length_cons]; push_cast; ring
  refine ⟨_, newLine_bottom s l0 rest hl hyr, rfl, rfl, rfl, ?_, ?_, ?_, rfl⟩
  · show (rest ++ [l0.clear]).length = s.m_screen_lines.length
    rw [hl]; simp
  · intro i hi
    show (rest ++ [l0.clear])[i]? = s.m_screen_lines[i + 1]?
    rw [hl, List.getElem?_append_left hi, List.getElem?_cons_succ]
  · show ((rest ++ [l0.clear]).map TextSegmentLine.id).Perm
      (s.m_screen_lines.map TextSegmentLine.id)
    rw [hl, List.map_append, List.map_cons, List.map_cons, List.map_nil]
    exact List.perm_append_singleton _ _

/-- Witness of C8: a line feed on the bottom row of the example screen. -/
theorem newLine_rotates_witness :
    ∃ t, exampleScreen.newLine = .ok t ∧
      t.m_screen_lines = [⟨1, [⟨['c'], exampleStyle⟩]⟩, ⟨2, []⟩, ⟨0, []⟩] := by
  obtain ⟨t, h, hlines, _⟩ := newLine_rotates exampleScreen ⟨0, [⟨['a', 'b'], exampleStyle⟩]⟩
    [⟨1, [⟨['c'], exampleStyle⟩]⟩, ⟨2, []⟩] rfl rfl
  exact ⟨t, h, hlines⟩

/-! ## What a resize does to the lines -/

/-- The lines allocated by a resize are empty and their identities start at the allocation
counter. -/
theorem newLines_mem (next n : Nat) (l : TextSegmentLine) (hl : l ∈ newLines next n) :
    l.segments = [] ∧ next ≤ l.id := by
  unfold newLines at hl
  rw [List.mem_map] at hl
  obtain ⟨i, _, rfl⟩ := hl
  exact ⟨rfl, Nat.le_add_right next i⟩

/-- The lines allocated by a resize are distinct objects. -/
theorem newLines_nodup (next n : Nat) : ((newLines next n).map TextSegmentLine.id).Nodup := by
  unfold newLines
  rw [List.map_map]
  refine List.Nodup.map ?_ (List.nodup_range n)
  intro i j hij
  simpa [TextSegmentLine.create] using hij

/-- C9: for a buffer with `n` lines `L` and a requested height `h ≥ 0`: if `h < n` then
`setHeight(h)` leaves exactly the last `h` lines of `L` in their original order (the first
`n - h` are removed) and emits `linesRemoved(n - h)`; if `h > n` it leaves `L` followed by
`h - n` new empty lines (distinct objects, allocated by this call) and emits
`linesInserted(h - n)`; if `h == n` the buffer is unchanged and no notification is emitted. -/
theorem setHeight_reshape (s : TerminalScreen) (h : Int) (h0 : 0 ≤ h) :
    (h < s.m_screen_lines.length →
      ∃ t, s.setHeight h = .ok (t, [Signal.linesRemoved (s.m_screen_lines.length - h)]) ∧
        t.m_screen_lines = s.m_screen_lines.drop (s.m_screen_lines.length - h.toNat) ∧
        s.m_screen_lines =
          s.m_screen_lines.take (s.m_screen_lines.length - h.toNat) ++ t.m_screen_lines ∧
        t.m_screen_lines.length = h.toNat) ∧
    ((s.m_screen_lines.length : Int) < h →
      ∃ t, s.setHeight h = .ok (t, [Signal.linesInserted (h - s.m_screen_lines.length)]) ∧
        t.m_screen_lines =
          s.m_screen_lines ++ newLines s.next_line (h.toNat - s.m_screen_lines.length) ∧
        (newLines s.next_line (h.toNat - s.m_screen_lines.length)).length =
          h.toNat - s.m_screen_lines.length ∧
        (∀ l ∈ newLines s.next_line (h.toNat - s.m_screen_lines.length),
          l.segments = [] ∧ s.next_line ≤ l.id) ∧
        ((newLines s.next_line (h.toNat - s.m_screen_lines.length)).map
          TextSegmentLine.id).Nodup) ∧
    ((s.m_screen_lines.length : Int) = h →
      ∃ t, s.setHeight h = .ok (t, []) ∧ t.m_screen_lines = s.m_screen_lines) := by
  refine ⟨?_, ?_, ?_⟩
  · intro hlt
    obtain ⟨t, ht, hl, _⟩ := setHeight_shrink_eq s h h0 hlt
    refine ⟨t, ht, hl, ?_, ?_⟩
    · rw [hl, List.take_append_drop]
    · rw [hl, List.length_drop]; omega
  · intro hgt
    obtain ⟨t, ht, hl, _⟩ := setHeight_grow_eq s h hgt
    exact ⟨t, ht, hl, newLines_length _ _, newLines_mem _ _, newLines_nodup _ _⟩
  · intro heq
    obtain ⟨t, ht, hl, _⟩ := setHeight_same_eq s h heq
    exact ⟨t, ht, hl⟩

/-- Witness of C9: the three-line example screen resized to one line, to five lines and to
three lines. -/
theorem setHeight_reshape_witness :
    (∃ t, exampleScreen.setHeight 1 = .ok (t, [Signal.linesRemoved 2]) ∧
        t.m_screen_lines = [⟨2, []⟩]) ∧
    (∃ t, exampleScreen.setHeight 5 = .ok (t, [Signal.linesInserted 2]) ∧
        t.m_screen_lines = exampleScreen.m_screen_lines ++ [⟨3, []⟩, ⟨4, []⟩]) ∧
    (∃ t, exampleScreen.setHeight 3 = .ok (t, []) ∧
        t.m_screen_lines = exampleScreen.m_screen_lines) := by
  refine ⟨?_, ?_, ?_⟩
  · obtain ⟨t, h, hl, _⟩ := (setHeight_reshape exampleScreen 1 (by decide)).1 (by decide)
    exact ⟨t, h, hl⟩
  · obtain ⟨t, h, hl, _⟩ := (setHeight_reshape exampleScreen 5 (by decide)).2.1 (by decide)
    exact ⟨t, h, hl⟩
  · exact (setHeight_reshape exampleScreen 3 (by decide)).2.2 (by decide)

/-- C10: for every buffer of height `h ≥ 1` with lines `L` and every `n ≥ 1`, `setHeight(h + n)`
followed by `setHeight(h)` returns a buffer of height `h` equal to `L` with its first
`min(n, h)` lines dropped followed by `min(n, h)` of the new empty lines; hence the original
buffer is not restored whenever one of the dropped top lines was not empty. -/
theorem setHeight_grow_shrink (s : TerminalScreen) (n : Nat)
    (hh : 1 ≤ s.m_screen_lines.length) (hn : 1 ≤ n) :
    ∃ t g1 u g2, s.setHeight ((s.m_screen_lines.length : Int) + n) = .ok (t, g1) ∧
      t.setHeight (s.m_screen_lines.length : Int) = .ok (u, g2) ∧
      u.m_screen_lines.length = s.m_screen_lines.length ∧
      u.m_screen_lines = s.m_screen_lines.drop (min n s.m_screen_lines.length) ++
        (newLines s.next_line n).drop (n - min n s.m_screen_lines.length) ∧
      ((newLines s.next_line n).drop (n - min n s.m_screen_lines.length)).length =
        min n s.m_screen_lines.length ∧
      (∀ l ∈ (newLines s.next_line n).drop (n - min n s.m_screen_lines.length),
        l.segments = [] ∧ s.next_line ≤ l.id) ∧
      ((∃ l ∈ s.m_screen_lines.take (min n s.m_screen_lines.length), l.segments ≠ []) →
        u.m_screen_lines ≠ s.m_screen_lines) := by
  obtain ⟨t, ht, hlt, _⟩ := setHeight_grow_eq s ((s.m_screen_lines.length : Int) + n)
    (by omega)
  have hk : ((s.m_screen_lines.length : Int) + n).toNat - s.m_screen_lines.length = n := by
    omega
  rw [hk] at hlt
  have htlen : t.m_screen_lines.length = s.m_screen_lines.length + n := by
    rw [hlt, List.length_append, newLines_length]
  obtain ⟨u, hu, hlu, _⟩ := setHeight_shrink_eq t (s.m_screen_lines.length : Int) (by omega)
    (by rw [htlen]; push_cast; omega)
  have hdrop : t.m_screen_lines.length - ((s.m_screen_lines.length : Int)).toNat = n := by
    rw [htlen]; omega
  have hfresh : ∀ l ∈ (newLines s.next_line n).drop (n - min n s.m_screen_lines.length),
      l.segments = [] ∧ s.next_line ≤ l.id :=
    fun l hl => newLines_mem _ _ l (List.mem_of_mem_drop hl)
  have hlines : u.m_screen_lines = s.m_screen_lines.drop (min n s.m_screen_lines.length) ++
      (newLines s.next_line n).drop (n - min n s.m_screen_lines.length) := by
    rw [hlu, hdrop, hlt, List.drop_append_eq_append_drop]
    rcases le_total n s.m_screen_lines.length with hle | hge
    · rw [min_eq_left hle, Nat.sub_self, Nat.sub_eq_zero_of_le hle]
    · rw [min_eq_right hge, List.drop_of_length_le hge, List.drop_of_length_le (le_refl _)]
  refine ⟨t, _, u, _, ht, hu, ?_, hlines, ?_, hfresh, ?_⟩
  · rw [hlu, List.length_drop, hdrop, htlen]; omega
  · rw [List.length_drop, newLines_length]; omega
  · rintro ⟨l, hl, hne⟩ heq
    have hcount_new : ((newLines s.next_line n).drop
        (n - min n s.m_screen_lines.length)).countP (fun l => decide (l.segments ≠ [])) = 0 := by
      rw [List.countP_eq_zero]
      intro x hx
      simp [(hfresh x hx).1]
    have hcount_top : 0 < (s.m_screen_lines.take (min n s.m_screen_lines.length)).countP
        (fun l => decide (l.segments ≠ [])) := by
      rw [List.countP_pos_iff]
      exact ⟨l, hl, by simpa using hne⟩
    have hsplit := congrArg (List.countP (fun l => decide (l.segments ≠ [])))
      (List.take_append_drop (min n s.m_screen_lines.length) s.m_screen_lines)
    have hres := congrArg (List.countP (fun l => decide (l.segments ≠ []))) (hlines.symm.trans heq)
    rw [List.countP_append] at hsplit hres
    omega

/-- Witness of C10: the example screen grown by one line and shrunk back loses its first line,
which had text. -/
theorem setHeight_grow_shrink_witness :
    ∃ t g1 u g2, exampleScreen.setHeight 4 = .ok (t, g1) ∧ t.setHeight 3 = .ok (u, g2) ∧
      u.m_screen_lines = [⟨1, [⟨['c'], exampleStyle⟩]⟩, ⟨2, []⟩, ⟨3, []⟩] ∧
      u.m_screen_lines ≠ exampleScreen.m_screen_lines := by
  obtain ⟨t, g1, u, g2, h1, h2, _, hl, _, _, hne⟩ :=
    setHeight_grow_shrink exampleScreen 1 (by decide) (by decide)
  exact ⟨t, g1, u, g2, h1, h2, hl, hne (by decide)⟩

/-! ## The colour codes of `setColor` -/

/-- C11: for every code in 30..37, `setColor(bold, code)` returns and sets the current
foreground to the palette's light colour of index `code - 30` when `bold` is false and to the
normal colour of that index when `bold` is true, leaving background and emphasis unchanged; for
every code in 40..47 it does the same to the background with index `code - 40`, leaving
foreground and emphasis unchanged.  Nothing but the current style is touched. -/
theorem setColor_palette (s : TerminalScreen) (bold : Bool) (code : Nat) :
    (30 ≤ code ∧ code ≤ 37 →
      ∃ t, s.setColor bold code = .ok t ∧
        t.m_current_text_style.forground =
          (if bold then s.m_palette.normalColor (code - 30)
            else s.m_palette.lightColor (code - 30)) ∧
        t.m_current_text_style.background = s.m_current_text_style.background ∧
        t.m_current_text_style.style = s.m_current_text_style.style ∧
        t.m_screen_lines = s.m_screen_lines ∧ t.m_cursor_pos = s.m_cursor_pos ∧
        t.m_update_actions = s.m_update_actions) ∧
    (40 ≤ code ∧ code ≤ 47 →
      ∃ t, s.setColor bold code = .ok t ∧
        t.m_current_text_style.background =
          (if bold then s.m_palette.normalColor (code - 40)
            else s.m_palette.lightColor (code - 40)) ∧
        t.m_current_text_style.forground = s.m_current_text_style.forground ∧
        t.m_current_text_style.style = s.m_current_text_style.style ∧
        t.m_screen_lines = s.m_screen_lines ∧ t.m_cursor_pos = s.m_cursor_pos ∧
        t.m_update_actions = s.m_update_actions) := by
  constructor
  · rintro ⟨h30, h37⟩
    have hband : ¬ ¬ (code ≥ 30 ∧ code < 50) := by omega
    have h38 : code < 38 := by omega
    unfold setColor
    rw [if_neg hband, if_pos h38]
    cases bold <;> exact ⟨_, rfl, rfl, rfl, rfl, rfl, rfl, rfl⟩
  · rintro ⟨h40, h47⟩
    have hband : ¬ ¬ (code ≥ 30 ∧ code < 50) := by omega
    have h38 : ¬ code < 38 := by omega
    have h39 : ¬ code = 39 := by omega
    have hbg : code ≥ 40 ∧ code < 48 := by omega
    have h49 : ¬ code = 49 := by omega
    unfold setColor
    rw [if_neg hband, if_neg h38, if_neg h39]
    simp only [hbg, and_self, if_true, h49, if_false]
    cases bold <;> exact ⟨_, rfl, rfl, rfl, rfl, rfl, rfl, rfl⟩

/-- Witness of C11: `setColor(false, 31)` sets the foreground of the example screen to the light
colour of index 1, and `setColor(true, 44)` its background to the normal colour of index 4. -/
theorem setColor_palette_witness :
    (∃ t, exampleScreen.setColor false 31 = .ok t ∧
        t.m_current_text_style.forground = examplePalette.lightColor 1 ∧
        t.m_current_text_style.background = exampleScreen.m_current_text_style.background) ∧
    (∃ t, exampleScreen.setColor true 44 = .ok t ∧
        t.m_current_text_style.background = examplePalette.normalColor 4 ∧
        t.m_current_text_style.forground = exampleScreen.m_current_text_style.forground) := by
  refine ⟨?_, ?_⟩
  · obtain ⟨t, h, hf, hb, _⟩ := (setColor_palette exampleScreen false 31).1 (by decide)
    exact ⟨t, h, hf, hb⟩
  · obtain ⟨t, h, hb, hf, _⟩ := (setColor_palette exampleScreen true 44).2 (by decide)
    exact ⟨t, h, hb, hf⟩

/-- C12: for both values of `bold`, `setColor(bold, 39)` returns and sets the foreground to
`defaultForgroundColor()` leaving the background unchanged, `setColor(bold, 49)` returns and sets
the background to `defaultBackgroundColor()` leaving the foreground unchanged, and
`setColor(bold, 38)` and `setColor(bold, 48)` return the state they were called on; in all four
cases the result does not depend on `bold`. -/
theorem setColor_reset (s : TerminalScreen) (bold : Bool) :
    (∃ t, s.setColor bold 39 = .ok t ∧
        t.m_current_text_style.forground = defaultForgroundColor ∧
        t.m_current_text_style.background = s.m_current_text_style.background ∧
        t.m_current_text_style.style = s.m_current_text_style.style) ∧
    (∃ t, s.setColor bold 49 = .ok t ∧
        t.m_current_text_style.background = defaultBackgroundColor ∧
        t.m_current_text_style.forground = s.m_current_text_style.forground ∧
        t.m_current_text_style.style = s.m_current_text_style.style) ∧
    s.setColor bold 38 = .ok s ∧
    s.setColor bold 48 = .ok s ∧
    s.setColor bold 39 = s.setColor (!bold) 39 ∧
    s.setColor bold 49 = s.setColor (!bold) 49 ∧
    s.setColor bold 38 = s.setColor (!bold) 38 ∧
    s.setColor bold 48 = s.setColor (!bold) 48 := by
  cases bold <;>
    exact ⟨⟨_, rfl, rfl, rfl, rfl⟩, ⟨_, rfl, rfl, rfl, rfl⟩, rfl, rfl, rfl, rfl, rfl, rfl⟩

/-- The default colours are `Qt::black` for the foreground and `Qt::transparent` for the
background. -/
theorem default_colors :
    defaultForgroundColor = Qt.black ∧ defaultBackgroundColor = Qt.transparent :=
  ⟨rfl, rfl⟩

/-- C13: for every code outside `[30, 50)` and either value of `bold`, `setColor(bold, code)`
fails with a contract violation; the assertion comes before every assignment, so the failed call
yields no new state and the current style is the one it was called with.  For every code inside
`[30, 50)` the call does not fail. -/
theorem setColor_band (s : TerminalScreen) (bold : Bool) (code : Nat) :
    (¬ (30 ≤ code ∧ code < 50) →
      s.setColor bold code = .error .ContractViolation ∧ ∀ t, s.setColor bold code ≠ .ok t) ∧
    (30 ≤ code ∧ code < 50 → ∃ t, s.setColor bold code = .ok t) := by
  constructor
  · intro hout
    have herr : s.setColor bold code = .error .ContractViolation := by
      unfold setColor
      rw [if_pos (by simpa using hout)]
    refine ⟨herr, ?_⟩
    intro t ht
    rw [herr] at ht
    cases ht
  · intro hband
    obtain ⟨t, ht, _⟩ := setColor_frame s bold code hband
    exact ⟨t, ht⟩

/-- Witness of C13: code 50 is rejected and code 49 is accepted on the example screen. -/
theorem setColor_band_witness :
    exampleScreen.setColor true 50 = .error .ContractViolation ∧
    (∃ t, exampleScreen.setColor true 49 = .ok t) :=
  ⟨((setColor_band exampleScreen true 50).1 (by decide)).1,
   (setColor_band exampleScreen true 49).2 (by decide)⟩

/-! ## Inserting text at the cursor -/

/-- With the cursor row inside the buffer, `insertAtCursor` returns: the column advances by the
length of the text, and the line of the cursor row is replaced by the result of its `insertAtPos`
called with the advanced column and the current style. -/
theorem insertAtCursor_eq (s : TerminalScreen) (text : QString) (hv : s.cursorRowValid) :
    ∃ line, s.m_screen_lines[s.m_cursor_pos.y.toNat]? = some line ∧
      s.insertAtCursor text = .ok (store_line_at_cursor
        { s with m_cursor_pos := { s.m_cursor_pos with x := s.m_cursor_pos.x + text.length } }
        (line.insertAtPos (s.m_cursor_pos.x + text.length) text s.m_current_text_style)) := by
  obtain ⟨h0, h1⟩ := hv
  unfold height at h1
  have hlt : s.m_cursor_pos.y.toNat < s.m_screen_lines.length := by omega
  have hline : s.line_at_cursor = .ok s.m_screen_lines[s.m_cursor_pos.y.toNat] := by
    unfold line_at_cursor QVector.at_
    rw [if_neg (by omega), List.getElem?_eq_getElem hlt]
  refine ⟨_, List.getElem?_eq_getElem hlt, ?_⟩
  simp only [insertAtCursor, hline, bind, Except.bind, pure, Except.pure]

/-- C14: for every state with `0 ≤ row < height()` and every text `t`, `insertAtCursor(t)`
returns and afterwards the column equals the previous column plus the length of `t`, and the
cursor row, the current style, the number of buffer lines, every line other than the one at the
cursor row, and the pending queue are unchanged. -/
theorem insertAtCursor_frame (s : TerminalScreen) (text : QString) (hv : s.cursorRowValid) :
    ∃ t, s.insertAtCursor text = .ok t ∧
      t.m_cursor_pos.x = s.m_cursor_pos.x + text.length ∧
      t.m_cursor_pos.y = s.m_cursor_pos.y ∧
      t.m_current_text_style = s.m_current_text_style ∧
      t.m_screen_lines.length = s.m_screen_lines.length ∧
      (∀ i : Nat, i ≠ s.m_cursor_pos.y.toNat → t.m_screen_lines[i]? = s.m_screen_lines[i]?) ∧
      t.m_update_actions = s.m_update_actions := by
  obtain ⟨line, _, heq⟩ := insertAtCursor_eq s text hv
  refine ⟨_, heq, rfl, rfl, rfl, ?_, ?_, rfl⟩
  · show (s.m_screen_lines.set _ _).length = s.m_screen_lines.length
    rw [List.length_set]
  · intro i hi
    show (s.m_screen_lines.set s.m_cursor_pos.y.toNat _)[i]? = s.m_screen_lines[i]?
    rw [List.getElem?_set_ne (Ne.symm hi)]

/-- Witness of C14: two characters inserted on the bottom line of the example screen. -/
theorem insertAtCursor_frame_witness :
    ∃ t, exampleScreen.insertAtCursor ['h', 'i'] = .ok t ∧
      t.m_cursor_pos.x = exampleScreen.m_cursor_pos.x + (['h', 'i'] : QString).length ∧
      t.m_cursor_pos.y = exampleScreen.m_cursor_pos.y ∧
      t.m_update_actions = exampleScreen.m_update_actions := by
  obtain ⟨t, h, hx, hy, _, _, _, hq⟩ := insertAtCursor_frame exampleScreen ['h', 'i']
    ⟨by decide, by decide⟩
  exact ⟨t, h, hx, hy, hq⟩

/-- C18: for every state with `0 ≤ row < height()`, cursor column `x` and text `t`,
`insertAtCursor(t)` calls the `insertAtPos` of the cursor line with position `x + length(t)`
(the column after the advance), not with `x`, and with the current text style: the line of the
cursor row afterwards is the result of that call.  For a text that is not empty the position
differs from the column the cursor had. -/
theorem insertAtCursor_position (s : TerminalScreen) (text : QString) (hv : s.cursorRowValid) :
    ∃ line t, s.m_screen_lines[s.m_cursor_pos.y.toNat]? = some line ∧
      s.insertAtCursor text = .ok t ∧
      t.m_screen_lines[s.m_cursor_pos.y.toNat]? =
        some (line.insertAtPos (s.m_cursor_pos.x + text.length) text s.m_current_text_style) ∧
      (text ≠ [] → s.m_cursor_pos.x + text.length ≠ s.m_cursor_pos.x) := by
  obtain ⟨line, hline, heq⟩ := insertAtCursor_eq s text hv
  obtain ⟨h0, h1⟩ := hv
  unfold height at h1
  have hlt : s.m_cursor_pos.y.toNat < s.m_screen_lines.length := by omega
  refine ⟨line, _, hline, heq, ?_, ?_⟩
  · show (s.m_screen_lines.set s.m_cursor_pos.y.toNat _)[s.m_cursor_pos.y.toNat]? = _
    rw [List.getElem?_set_self hlt]
  · intro hne
    have hpos : 0 < text.length := List.length_pos.mpr hne
    omega

/-- Witness of C18: with the cursor at column 0 of the line `ab`, inserting `X` gives `aXb`: the
text goes to column 1, not to the column 0 the cursor was on (which would give `Xab`). -/
theorem insertAtCursor_position_witness :
    ∃ t, ({ exampleScreen with m_cursor_pos := ⟨0, 0⟩ } : TerminalScreen).insertAtCursor ['X'] =
        .ok t ∧
      t.m_screen_lines[0]? = some ⟨0, [⟨['a', 'X', 'b'], exampleStyle⟩]⟩ ∧
      t.m_screen_lines[0]? ≠ some ((⟨0, [⟨['a', 'b'], exampleStyle⟩]⟩ :
        TextSegmentLine).insertAtPos 0 ['X'] exampleStyle) := by
  obtain ⟨line, t, hline, h, hres, _⟩ := insertAtCursor_position
    { exampleScreen with m_cursor_pos := ⟨0, 0⟩ } ['X'] ⟨by decide, by decide⟩
  have hl : line = ⟨0, [⟨['a', 'b'], exampleStyle⟩]⟩ := by
    have h0 : ({ exampleScreen with m_cursor_pos := ⟨0, 0⟩ } : TerminalScreen).m_screen_lines[
        ({ exampleScreen with m_cursor_pos := ⟨0, 0⟩ } : TerminalScreen).m_cursor_pos.y.toNat]? =
        some ⟨0, [⟨['a', 'b'], exampleStyle⟩]⟩ := rfl
    rw [h0] at hline
    exact (Option.some.inj hline).symm
  subst hl
  have hres2 : t.m_screen_lines[0]? = some ⟨0, [⟨['a', 'X', 'b'], exampleStyle⟩]⟩ := by
    rw [show (0 : Nat) = ({ exampleScreen with m_cursor_pos := ⟨0, 0⟩ } :
      TerminalScreen).m_cursor_pos.y.toNat from rfl, hres]
    decide
  refine ⟨t, h, hres2, ?_⟩
  rw [hres2]
  decide

/-! ## Horizontal movement -/

/-- C15: for every cursor `(x, y)`, `moveCursorLeft` yields `(x + 1, y)` and `moveCursorRight`
yields `(x - 1, y)`; neither is bounds-checked (`moveCursorRight` from column 0 yields column
-1), so the two are mutual inverses, and neither changes the row, the buffer, the style or the
pending queue. -/
theorem moveCursor_horizontal (s : TerminalScreen) :
    s.moveCursorLeft.m_cursor_pos = ⟨s.m_cursor_pos.x + 1, s.m_cursor_pos.y⟩ ∧
    s.moveCursorRight.m_cursor_pos = ⟨s.m_cursor_pos.x - 1, s.m_cursor_pos.y⟩ ∧
    (s.m_cursor_pos.x = 0 → s.moveCursorRight.m_cursor_pos.x = -1) ∧
    s.moveCursorLeft.moveCursorRight = s ∧
    s.moveCursorRight.moveCursorLeft = s ∧
    (s.moveCursorLeft.m_screen_lines = s.m_screen_lines ∧
      s.moveCursorLeft.m_current_text_style = s.m_current_text_style ∧
      s.moveCursorLeft.m_update_actions = s.m_update_actions) ∧
    (s.moveCursorRight.m_screen_lines = s.m_screen_lines ∧
      s.moveCursorRight.m_current_text_style = s.m_current_text_style ∧
      s.moveCursorRight.m_update_actions = s.m_update_actions) := by
  refine ⟨rfl, rfl, ?_, ?_, ?_, ⟨rfl, rfl, rfl⟩, ⟨rfl, rfl, rfl⟩⟩
  · intro hx
    show s.m_cursor_pos.x - 1 = -1
    rw [hx]; rfl
  · obtain ⟨palette, pty, lines, ⟨x, y⟩, style, queue, next⟩ := s
    simp [moveCursorLeft, moveCursorRight]
  · obtain ⟨palette, pty, lines, ⟨x, y⟩, style, queue, next⟩ := s
    simp [moveCursorLeft, moveCursorRight]

/-- Witness of C15: `moveCursorRight` on the example screen, whose cursor is on column 0. -/
theorem moveCursor_horizontal_witness : exampleScreen.moveCursorRight.m_cursor_pos.x = -1 :=
  (moveCursor_horizontal exampleScreen).2.2.1 rfl

/-! ## The invariant of the pending queue -/

/-- A registration adds one to the sum of the counts. -/
theorem registerScroll_countSum (direction : UpdateAction.Action) (line : Int)
    (q : List UpdateAction) :
    countSum (registerScroll direction line q) = countSum q + 1 := by
  rcases List.eq_nil_or_concat q with rfl | ⟨front, last, rfl⟩
  · rfl
  · rw [List.concat_eq_append]
    by_cases hc : last.action = direction ∧ last.from_line = line
    · rw [registerScroll_merge direction line front last hc.1 hc.2]
      simp only [countSum, List.map_append, List.map_cons, List.map_nil, List.sum_append,
        List.sum_cons, List.sum_nil]
      ring
    · rw [registerScroll_append direction line front last hc]
      simp only [countSum, List.map_append, List.map_cons, List.map_nil, List.sum_append,
        List.sum_cons, List.sum_nil]
      ring

/-- A registration keeps every count at 1 or more. -/
theorem registerScroll_count_pos (direction : UpdateAction.Action) (line : Int)
    (q : List UpdateAction) (hpos : ∀ a ∈ q, 1 ≤ a.count) :
    ∀ a ∈ registerScroll direction line q, 1 ≤ a.count := by
  rcases List.eq_nil_or_concat q with rfl | ⟨front, last, rfl⟩
  · intro a ha
    simp only [registerScroll, List.getLast?_nil, List.nil_append, List.mem_singleton] at ha
    rw [ha]
  · rw [List.concat_eq_append] at hpos ⊢
    have hlast : 1 ≤ last.count := hpos last (by simp)
    have hfront : ∀ a ∈ front, 1 ≤ a.count := fun a ha => hpos a (by simp [ha])
    by_cases hc : last.action = direction ∧ last.from_line = line
    · rw [registerScroll_merge direction line front last hc.1 hc.2]
      intro a ha
      rcases List.mem_append.mp ha with h | h
      · exact hfront a h
      · rw [List.mem_singleton] at h
        rw [h]
        show 1 ≤ last.count + 1
        omega
    · rw [registerScroll_append direction line front last hc]
      intro a ha
      rcases List.mem_append.mp ha with h | h
      · exact hpos a h
      · rw [List.mem_singleton] at h
        rw [h]

/-- A registration never leaves two adjacent entries with the same direction and line. -/
theorem registerScroll_chain (direction : UpdateAction.Action) (line : Int)
    (q : List UpdateAction) (hch : q.Chain' (fun a b => ¬ a.sameTarget b)) :
    (registerScroll direction line q).Chain' (fun a b => ¬ a.sameTarget b) := by
  rcases List.eq_nil_or_concat q with rfl | ⟨front, last, rfl⟩
  · exact List.chain'_singleton _
  · rw [List.concat_eq_append] at hch ⊢
    by_cases hc : last.action = direction ∧ last.from_line = line
    · rw [registerScroll_merge direction line front last hc.1 hc.2]
      rw [List.chain'_append] at hch ⊢
      obtain ⟨hfront, _, hlink⟩ := hch
      refine ⟨hfront, List.chain'_singleton _, ?_⟩
      intro x hx y hy
      simp only [List.head?_cons, Option.mem_def, Option.some.injEq] at hy
      have hxl := hlink x hx last (by simp)
      subst hy
      intro hsame
      exact hxl ⟨hsame.1.trans hc.1.symm, hsame.2.trans hc.2.symm⟩
    · rw [registerScroll_append direction line front last hc]
      rw [List.chain'_append]
      refine ⟨hch, List.chain'_singleton _, ?_⟩
      intro x hx y hy
      simp only [List.head?_cons, Option.mem_def, Option.some.injEq] at hy
      rw [List.getLast?_concat, Option.mem_def, Option.some.injEq] at hx
      subst hx hy
      exact hc

/-- A queue whose counts are all 1 or more is no longer than the sum of its counts. -/
theorem length_le_countSum (q : List UpdateAction) (hpos : ∀ a ∈ q, 1 ≤ a.count) :
    (q.length : Int) ≤ countSum q := by
  induction q with
  | nil => simp [countSum]
  | cons a rest ih =>
    have h1 := hpos a (List.mem_cons_self a rest)
    have h2 := ih (fun b hb => hpos b (List.mem_cons_of_mem a hb))
    simp only [countSum, List.map_cons, List.sum_cons, List.length_cons] at h2 ⊢
    push_cast
    omega

/-- One registration is one call of `registerScroll` on the queue. -/
theorem register_queue (s : TerminalScreen) (r : UpdateAction.Action × Int) :
    (s.register r).m_update_actions = registerScroll r.1 r.2 s.m_update_actions := by
  obtain ⟨direction, line⟩ := r
  cases direction <;> rfl

/-- The three properties of the queue are kept by any sequence of registrations, and the sum of
the counts grows by the number of registrations. -/
theorem registerAll_invariant (rs : List (UpdateAction.Action × Int)) (s : TerminalScreen)
    (hpos : ∀ a ∈ s.m_update_actions, 1 ≤ a.count)
    (hch : s.m_update_actions.Chain' (fun a b => ¬ a.sameTarget b)) :
    (∀ a ∈ (s.registerAll rs).m_update_actions, 1 ≤ a.count) ∧
      (s.registerAll rs).m_update_actions.Chain' (fun a b => ¬ a.sameTarget b) ∧
      countSum (s.registerAll rs).m_update_actions = countSum s.m_update_actions + rs.length := by
  induction rs generalizing s with
  | nil => exact ⟨hpos, hch, by simp [registerAll]⟩
  | cons r rs ih =>
    have hq := register_queue s r
    obtain ⟨h1, h2, h3⟩ := ih (s.register r)
      (by rw [hq]; exact registerScroll_count_pos _ _ _ hpos)
      (by rw [hq]; exact registerScroll_chain _ _ _ hch)
    refine ⟨h1, h2, ?_⟩
    have hstep : (s.registerAll (r :: rs)) = (s.register r).registerAll rs := rfl
    rw [hstep, h3, hq, registerScroll_countSum, List.length_cons]
    push_cast
    ring

/-- C17: in every state reached from an empty queue by any sequence of `doScrollOneLineUpAt` and
`doScrollOneLineDownAt` registrations, every entry has `count ≥ 1`, no two adjacent entries have
both the same direction and the same `from_line`, and the sum of all counts equals the number of
registrations made; consequently the queue length never exceeds the number of registrations. -/
theorem queue_invariant (s : TerminalScreen) (rs : List (UpdateAction.Action × Int))
    (hempty : s.m_update_actions = []) :
    (∀ a ∈ (s.registerAll rs).m_update_actions, 1 ≤ a.count) ∧
      (s.registerAll rs).m_update_actions.Chain' (fun a b => ¬ a.sameTarget b) ∧
      countSum (s.registerAll rs).m_update_actions = rs.length ∧
      (s.registerAll rs).m_update_actions.length ≤ rs.length := by
  obtain ⟨h1, h2, h3⟩ := registerAll_invariant rs s
    (by rw [hempty]; intro a ha; simp at ha) (by rw [hempty]; exact List.chain'_nil)
  have hsum : countSum (s.registerAll rs).m_update_actions = rs.length := by
    rw [h3, hempty]; simp [countSum]
  refine ⟨h1, h2, hsum, ?_⟩
  have hle := length_le_countSum _ h1
  rw [hsum] at hle
  exact_mod_cast hle

/-- Witness of C17: two scroll-ups at line 2, a scroll-down at line 2 and a scroll-up at line 2
on the example screen leave three entries whose counts sum to four. -/
theorem queue_invariant_witness :
    (exampleScreen.registerAll
        [(.ScrollUp, 2), (.ScrollUp, 2), (.ScrollDown, 2), (.ScrollUp, 2)]).m_update_actions =
      [⟨.ScrollUp, 2, 2⟩, ⟨.ScrollDown, 2, 1⟩, ⟨.ScrollUp, 2, 1⟩] ∧
    countSum (exampleScreen.registerAll
        [(.ScrollUp, 2), (.ScrollUp, 2), (.ScrollDown, 2), (.ScrollUp, 2)]).m_update_actions =
      ([(.ScrollUp, 2), (.ScrollUp, 2), (.ScrollDown, 2), (.ScrollUp, 2)] :
        List (UpdateAction.Action × Int)).length :=
  ⟨by decide, (queue_invariant exampleScreen
    [(.ScrollUp, 2), (.ScrollUp, 2), (.ScrollDown, 2), (.ScrollUp, 2)] rfl).2.2.1⟩

/-! ## When `newLine` scrolls -/

/-- After a registration the queue ends with an entry of the direction and line registered. -/
theorem registerScroll_getLast (direction : UpdateAction.Action) (line : Int)
    (q : List UpdateAction) :
    ∃ c, (registerScroll direction line q).getLast? = some ⟨direction, line, c⟩ := by
  rcases List.eq_nil_or_concat q with rfl | ⟨front, last, rfl⟩
  · exact ⟨1, rfl⟩
  · rw [List.concat_eq_append]
    by_cases hc : last.action = direction ∧ last.from_line = line
    · rw [registerScroll_merge direction line front last hc.1 hc.2]
      exact ⟨last.count + 1, List.getLast?_concat _⟩
    · rw [registerScroll_append direction line front last hc]
      exact ⟨1, List.getLast?_concat _⟩

/-- C19: `newLine` scrolls exactly when the cursor is on the last row.  If `row == height() - 1`
(with `height() ≥ 1`), it returns having registered exactly one scroll-up at `from_line = row`
(the queue is the one `doScrollOneLineUpAt(row)` gives, its count sum grows by one) and leaves
the cursor row and column unchanged (the column is not reset to 0).  If `row != height() - 1`,
it returns with the cursor at `(0, row + 1)` and leaves the buffer lines and the pending queue
unchanged.  In both cases the current style and the buffer length are unchanged. -/
theorem newLine_cases (s : TerminalScreen) :
    (1 ≤ s.height → s.m_cursor_pos.y = s.height - 1 →
      ∃ t, s.newLine = .ok t ∧
        t.m_update_actions = (s.doScrollOneLineUpAt s.m_cursor_pos.y).m_update_actions ∧
        countSum t.m_update_actions = countSum s.m_update_actions + 1 ∧
        (∃ c, t.m_update_actions.getLast? = some ⟨.ScrollUp, s.m_cursor_pos.y, c⟩) ∧
        t.m_cursor_pos = s.m_cursor_pos ∧
        t.m_current_text_style = s.m_current_text_style ∧
        t.m_screen_lines.length = s.m_screen_lines.length) ∧
    (s.m_cursor_pos.y ≠ s.height - 1 →
      ∃ t, s.newLine = .ok t ∧
        t.m_cursor_pos = ⟨0, s.m_cursor_pos.y + 1⟩ ∧
        t.m_screen_lines = s.m_screen_lines ∧
        t.m_update_actions = s.m_update_actions ∧
        t.m_current_text_style = s.m_current_text_style ∧
        t.m_screen_lines.length = s.m_screen_lines.length) := by
  constructor
  · intro hh hy
    unfold height at hh hy
    cases hl : s.m_screen_lines with
    | nil => rw [hl] at hh; simp at hh
    | cons l0 rest =>
      have hyr : s.m_cursor_pos.y = rest.length := by
        rw [hy, hl, List.length_cons]; push_cast; ring
      refine ⟨_, newLine_bottom s l0 rest hl hyr, rfl,
        registerScroll_countSum _ _ _, registerScroll_getLast _ _ _, rfl, rfl, ?_⟩
      show (rest ++ [l0.clear]).length = (l0 :: rest).length
      simp
  · intro hy
    exact ⟨_, newLine_above s hy, rfl, rfl, rfl, rfl, rfl⟩

/-- Witness of C19: on the example screen, whose cursor is at `(0, 2)` on the last of three
lines, a line feed keeps the cursor and registers `ScrollUp(2, 1)`; with the cursor at `(5, 0)`
it moves the cursor to `(0, 1)`. -/
theorem newLine_cases_witness :
    (∃ t, exampleScreen.newLine = .ok t ∧
        t.m_update_actions = [⟨.ScrollUp, 2, 1⟩] ∧ t.m_cursor_pos = ⟨0, 2⟩) ∧
    (∃ t, ({ exampleScreen with m_cursor_pos := ⟨5, 0⟩ } : TerminalScreen).newLine = .ok t ∧
        t.m_cursor_pos = ⟨0, 1⟩ ∧ t.m_screen_lines = exampleScreen.m_screen_lines) := by
  refine ⟨?_, ?_⟩
  · obtain ⟨t, h, hq, _, _, hc, _⟩ := (newLine_cases exampleScreen).1 (by decide) (by decide)
    exact ⟨t, h, hq, hc⟩
  · obtain ⟨t, h, hc, hl, _⟩ :=
      (newLine_cases { exampleScreen with m_cursor_pos := ⟨5, 0⟩ }).2 (by decide)
    exact ⟨t, h, hc, hl⟩

/-! ## The arithmetic of the flush -/

/-- What a `scrollUp` notification of the flush says about the entry it comes from. -/
theorem flushNotification_scrollUp (height : Int) (a : UpdateAction) (f c : Int)
    (h : flushNotification height a = some (Signal.scrollUp f c)) :
    a.action = .ScrollUp ∧ f = a.from_line ∧ c = Int.tmod a.count (a.from_line + 1) ∧ c ≠ 0 := by
  unfold flushNotification UpdateAction.modulus at h
  cases hact : a.action with
  | ScrollUp =>
    rw [hact] at h
    by_cases hz : Int.tmod a.count (a.from_line + 1) = 0
    · simp [hz] at h
    · simp only [hz, if_false, Option.some.injEq, Signal.scrollUp.injEq] at h
      exact ⟨rfl, h.1.symm, h.2.symm, by rw [← h.2]; exact hz⟩
  | ScrollDown =>
    rw [hact] at h
    by_cases hz : Int.tmod a.count (height - a.from_line) = 0
    · simp [hz] at h
    · simp [hz] at h

/-- What a `scrollDown` notification of the flush says about the entry it comes from. -/
theorem flushNotification_scrollDown (height : Int) (a : UpdateAction) (f c : Int)
    (h : flushNotification height a = some (Signal.scrollDown f c)) :
    a.action = .ScrollDown ∧ f = a.from_line ∧
      c = Int.tmod a.count (height - a.from_line) ∧ c ≠ 0 := by
  unfold flushNotification UpdateAction.modulus at h
  cases hact : a.action with
  | ScrollUp =>
    rw [hact] at h
    by_cases hz : Int.tmod a.count (a.from_line + 1) = 0
    · simp [hz] at h
    · simp [hz] at h
  | ScrollDown =>
    rw [hact] at h
    by_cases hz : Int.tmod a.count (height - a.from_line) = 0
    · simp [hz] at h
    · simp only [hz, if_false, Option.some.injEq, Signal.scrollDown.injEq] at h
      exact ⟨rfl, h.1.symm, h.2.symm, by rw [← h.2]; exact hz⟩

/-- A count of 1 or more reduced by a positive modulus `m`, when not zero, lies in
`[1, m - 1]`. -/
theorem tmod_bounds (count m : Int) (hc : 1 ≤ count) (hm : 0 < m)
    (hne : Int.tmod count m ≠ 0) : 1 ≤ Int.tmod count m ∧ Int.tmod count m ≤ m - 1 := by
  rw [tmod_eq_emod_of_nonneg count m (by omega)] at hne ⊢
  have h0 := Int.emod_nonneg count (ne_of_gt hm)
  have h1 := Int.emod_lt_of_pos count hm
  omega

/-- C20: for every queue in which each `ScrollUp` entry has `from_line ≥ 0`, each `ScrollDown`
entry has `from_line < height()` and every count is 1 or more, `dispatchChanges` takes no
remainder by zero and returns, every emitted `scrollUp(f, c)` satisfies `1 ≤ c ≤ f` and every
emitted `scrollDown(f, c)` satisfies `1 ≤ c ≤ height() - f - 1`.  The `ScrollDown` part of the
precondition is not preserved by `setHeight`: after a shrink to a height `h ≤ from_line` the
entry is still queued, its modulus `height() - from_line` is zero or negative and the
precondition no longer holds; when `h = from_line` the flush then fails on a remainder by
zero. -/
theorem flush_bounds (s : TerminalScreen) :
    (s.flushPrecondition →
      (∀ a ∈ s.m_update_actions, a.modulus s.height ≠ 0) ∧
      ∃ t signals, s.dispatchChanges = .ok (t, signals) ∧
        (∀ f c, Signal.scrollUp f c ∈ signals → 1 ≤ c ∧ c ≤ f) ∧
        (∀ f c, Signal.scrollDown f c ∈ signals → 1 ≤ c ∧ c ≤ s.height - f - 1)) ∧
    (∀ (a : UpdateAction) (h : Int), a ∈ s.m_update_actions → a.action = .ScrollDown →
      0 ≤ h → h ≤ a.from_line →
      ∃ t g, s.setHeight h = .ok (t, g) ∧ a ∈ t.m_update_actions ∧
        a.modulus t.height ≤ 0 ∧ ¬ t.flushPrecondition ∧
        (h = a.from_line → t.dispatchChanges = .error .DivisionByZero)) := by
  constructor
  · intro hpre
    have hmod : ∀ a ∈ s.m_update_actions, a.modulus s.height ≠ 0 := by
      intro a ha
      obtain ⟨_, hup, hdown⟩ := hpre a ha
      unfold UpdateAction.modulus
      cases hact : a.action with
      | ScrollUp => have := hup hact; show a.from_line + 1 ≠ 0; omega
      | ScrollDown => have := hdown hact; show s.height - a.from_line ≠ 0; omega
    refine ⟨hmod, { s with m_update_actions := [] },
      flushNotifications s.height s.m_update_actions ++
        [Signal.dispatchLineChanges, Signal.dispatchTextSegmentChanges], ?_, ?_, ?_⟩
    · simp only [dispatchChanges, dispatchLoop_eq s.height s.m_update_actions hmod, bind,
        Except.bind, pure, Except.pure]
    · intro f c hmem
      have hmem2 : Signal.scrollUp f c ∈ flushNotifications s.height s.m_update_actions := by
        simpa using hmem
      unfold flushNotifications at hmem2
      rw [List.mem_filterMap] at hmem2
      obtain ⟨a, ha, hsome⟩ := hmem2
      obtain ⟨hact, hf, hc, hne⟩ := flushNotification_scrollUp _ _ _ _ hsome
      obtain ⟨hcount, hup, _⟩ := hpre a ha
      have hline := hup hact
      have hb := tmod_bounds a.count (a.from_line + 1) hcount (by omega) (by rw [← hc]; exact hne)
      rw [hc, hf]
      omega
    · intro f c hmem
      have hmem2 : Signal.scrollDown f c ∈ flushNotifications s.height s.m_update_actions := by
        simpa using hmem
      unfold flushNotifications at hmem2
      rw [List.mem_filterMap] at hmem2
      obtain ⟨a, ha, hsome⟩ := hmem2
      obtain ⟨hact, hf, hc, hne⟩ := flushNotification_scrollDown _ _ _ _ hsome
      obtain ⟨hcount, _, hdown⟩ := hpre a ha
      have hline := hdown hact
      have hb := tmod_bounds a.count (s.height - a.from_line) hcount (by omega)
        (by rw [← hc]; exact hne)
      rw [hc, hf]
      omega
  · intro a h ha hact h0 hle
    obtain ⟨t, g, ht, hlen, _, _, hq⟩ := setHeight_spec s h h0
    have hheight : t.height = h := hlen
    have hat : a ∈ t.m_update_actions := by rw [hq]; exact ha
    have hmodeq : a.modulus t.height = h - a.from_line := by
      unfold UpdateAction.modulus
      rw [hact, hheight]
    refine ⟨t, g, ht, hat, by rw [hmodeq]; omega, ?_, ?_⟩
    · intro hpre
      have := (hpre a hat).2.2 hact
      rw [hheight] at this
      omega
    · intro heq
      have hzero : ∃ b ∈ t.m_update_actions, b.modulus t.height = 0 :=
        ⟨a, hat, by rw [hmodeq]; omega⟩
      simp only [dispatchChanges, dispatchLoop_zero t.height t.m_update_actions hzero, bind,
        Except.bind]

/-- Witness of C20: on the example screen of three lines, the queue
`[ScrollUp(2, 4), ScrollDown(1, 5)]` meets the precondition and is flushed as `scrollUp(2, 1)`
and `scrollDown(1, 1)`; after `setHeight(1)` the scroll-down entry has modulus 0 and the flush
fails. -/
theorem flush_bounds_witness :
    (∃ t signals, ({ exampleScreen with m_update_actions :=
          [⟨.ScrollUp, 2, 4⟩, ⟨.ScrollDown, 1, 5⟩] } : TerminalScreen).dispatchChanges =
        .ok (t, signals) ∧
      (∀ f c, Signal.scrollUp f c ∈ signals → 1 ≤ c ∧ c ≤ f) ∧
      (∀ f c, Signal.scrollDown f c ∈ signals → 1 ≤ c ∧ c ≤ 3 - f - 1)) ∧
    (∃ t g, ({ exampleScreen with m_update_actions :=
          [⟨.ScrollUp, 2, 4⟩, ⟨.ScrollDown, 1, 5⟩] } : TerminalScreen).setHeight 1 =
        .ok (t, g) ∧
      t.dispatchChanges = .error .DivisionByZero) := by
  refine ⟨?_, ?_⟩
  · exact ((flush_bounds { exampleScreen with m_update_actions :=
      [⟨.ScrollUp, 2, 4⟩, ⟨.ScrollDown, 1, 5⟩] }).1 (by
        intro a ha
        simp only [List.mem_cons, List.mem_singleton, List.not_mem_nil, or_false] at ha
        rcases ha with rfl | rfl
        · exact ⟨by decide, fun _ => by decide, fun h => (by cases h)⟩
        · exact ⟨by decide, fun h => (by cases h), fun _ => by decide⟩)).2
  · obtain ⟨t, g, ht, _, _, _, hfail⟩ := (flush_bounds { exampleScreen with m_update_actions :=
      [⟨.ScrollUp, 2, 4⟩, ⟨.ScrollDown, 1, 5⟩] }).2 ⟨.ScrollDown, 1, 5⟩ 1
      (by simp) rfl (by decide) (by decide)
    exact ⟨t, g, ht, hfail rfl⟩

/-! ## The processing cycle -/

end Yat
